import Mathlib

/-!
# URL shortener: shallow embedding of `main.go`

The core of the program is three functions over two process-wide Go maps:

* `Base62Encoder` (lines 62-78): a `uint32` to a base-62 string;
* `GenerateURL` (lines 29-60): validate, look up `reverseStore`, otherwise
  hash with CRC-32, encode, and write both maps;
* `GetOriginalURL` (lines 80-89): look up `urlStore`.

Modelling conventions.

* A Go `string` is a Lean `String`; `[]byte(s)` is its UTF-8 encoding, a list
  of naturals below 256.
* A `uint32` is a `Nat`; every operation that could leave 32 bits is reduced
  modulo `2^32` explicitly.
* A Go `map[string]string` is an association list (`GoMap`) in which `set`
  overwrites the entry of an existing key in place and appends a new key.
* The global variables `urlStore` and `reverseStore` are the two fields of an
  explicit `Store` that every operation receives and returns.  `GenerateURL`
  and `GetOriginalURL` are the calls executed one after the other; for
  concurrent calls each critical section of the mutex `mu` is one atomic step
  of a scheduler (`lookupStep`, `insertStep`, `runSched`).
* A Go result `(string, error)` is a pair `String × Option GoError`, where
  `none` is the `nil` error.
* The `for num > 0` loop of `Base62Encoder` is run with explicit fuel and
  answers `none` when the fuel is used up, so that its termination is a
  theorem and not an assumption; the functions that call it inherit the
  `Option`.
* `url.Parse` and `crc32.ChecksumIEEE` belong to the Go standard library, not
  to the repository.  They are embedded from the library sources
  (`net/url/url.go` and `hash/crc32/crc32_generic.go`, Go 1.20 to 1.24); of
  `url.Parse` only the returned error is kept, since `GenerateURL` discards
  the parsed value.
-/

namespace UrlShortener

/-! ## Go maps -/

/-- A Go `map[string]string`, as an association list. -/
abbrev GoMap := List (String × String)

namespace GoMap

/-- The result of `make(map[string]string)`. -/
def empty : GoMap := []

/-- The two-valued read `v, exists := m[k]`: `none` when `exists` is false. -/
def get : GoMap → String → Option String
  | [], _ => none
  | (k', v') :: rest, k => if k' = k then some v' else get rest k

/-- The assignment `m[k] = v`: an existing key keeps its place and takes the
new value, a new key is added. -/
def set : GoMap → String → String → GoMap
  | [], k, v => [(k, v)]
  | (k', v') :: rest, k, v => if k' = k then (k, v) :: rest else (k', v') :: set rest k v

/-- The builtin `len(m)`. -/
def len (m : GoMap) : Nat := m.length

end GoMap

/-! ## Byte strings -/

/-- The conversion `[]byte(s)`. -/
def bytes (s : String) : List Nat :=
  s.data.flatMap fun c => (String.utf8EncodeChar c).map UInt8.toNat

/-! ## `hash/crc32` (generic implementation) -/

namespace crc32

/-- The constant `crc32.IEEE`, the reversed IEEE polynomial. -/
def IEEE : Nat := 0xedb88320

/-- The inner loop of `simplePopulateTable`: `j` rounds of shift-and-xor. -/
def tableRounds (poly : Nat) : Nat → Nat → Nat
  | 0, crc => crc
  | j + 1, crc =>
    tableRounds poly j (if crc &&& 1 = 1 then (crc >>> 1) ^^^ poly else crc >>> 1)

/-- Entry `t[i]` of the table built by `simplePopulateTable(poly, t)`. -/
def tableEntry (poly i : Nat) : Nat := tableRounds poly 8 i

/-- The byte loop of `simpleUpdate`:
`crc = tab[byte(crc)^v] ^ (crc >> 8)` for every byte `v` of `p`. -/
def updateLoop (poly : Nat) : Nat → List Nat → Nat
  | crc, [] => crc
  | crc, v :: p => updateLoop poly (tableEntry poly ((crc % 256) ^^^ v) ^^^ (crc >>> 8)) p

/-- The function `simpleUpdate(crc, tab, p)`; `^crc` on a `uint32` is the xor
with `0xffffffff`. -/
def simpleUpdate (crc poly : Nat) (p : List Nat) : Nat :=
  (updateLoop poly ((crc ^^^ 0xffffffff) % 2 ^ 32) p ^^^ 0xffffffff) % 2 ^ 32

/-- The function `crc32.ChecksumIEEE(data)`, that is `Update(0, IEEETable, data)`.
The accelerated variants of the library (slicing-by-8, hardware) compute the
same checksum as `simpleUpdate` with the table of the IEEE polynomial. -/
def ChecksumIEEE (data : List Nat) : Nat := simpleUpdate 0 IEEE data

end crc32

/-! ## `net/url`: the error returned by `url.Parse` -/

namespace url

/-- The errors `url.Parse` can return (their message payloads are dropped). -/
inductive ParseError
  /-- The error "net/url: invalid control character in URL". -/
  | invalidControlCharacter
  /-- The error "missing protocol scheme". -/
  | missingProtocolScheme
  /-- The error "first path segment in URL cannot contain colon". -/
  | firstPathSegmentColon
  /-- The error "missing ']' in host". -/
  | missingBracket
  /-- The error "invalid port ... after host". -/
  | invalidPort
  /-- The error "net/url: invalid userinfo". -/
  | invalidUserinfo
  /-- The type `EscapeError`. -/
  | escapeError
  /-- The type `InvalidHostError`. -/
  | invalidHostError
  deriving DecidableEq, Repr

/-- The escaping modes of `net/url` that parsing uses. -/
inductive Encoding
  | encodePath
  | encodeHost
  | encodeZone
  | encodeUserPassword
  | encodeFragment
  deriving DecidableEq, Repr

/-- The byte of an ASCII character. -/
def b (c : Char) : Nat := c.toNat

/-- The test `'a' <= c && c <= 'z' || 'A' <= c && c <= 'Z'`. -/
def isLetter (c : Nat) : Bool :=
  (b 'a' ≤ c && c ≤ b 'z') || (b 'A' ≤ c && c ≤ b 'Z')

/-- The test `'0' <= c && c <= '9'`. -/
def isDigit (c : Nat) : Bool := b '0' ≤ c && c ≤ b '9'

/-- The function `ishex`. -/
def ishex (c : Nat) : Bool :=
  isDigit c || (b 'a' ≤ c && c ≤ b 'f') || (b 'A' ≤ c && c ≤ b 'F')

/-- The function `unhex`. -/
def unhex (c : Nat) : Nat :=
  if isDigit c then c - b '0'
  else if b 'a' ≤ c && c ≤ b 'f' then c - b 'a' + 10
  else if b 'A' ≤ c && c ≤ b 'F' then c - b 'A' + 10
  else 0

/-- The function `stringContainsCTLByte`. -/
def stringContainsCTLByte (s : List Nat) : Bool :=
  s.any fun c => c < b ' ' || c = 0x7f

/-- The call `strings.Cut(s, sep)` for a one-byte separator: the parts before
and after the first `sep`, or `s` and the empty string. -/
def cut (sep : Nat) : List Nat → List Nat × List Nat
  | [] => ([], [])
  | c :: s => if c = sep then ([], s) else ((cut sep s).1.cons c, (cut sep s).2)

/-- The call `strings.LastIndex(s, sep)` for a one-byte separator; `none` is `-1`. -/
def lastIndex (sep : Nat) : List Nat → Option Nat
  | [] => none
  | c :: s =>
    match lastIndex sep s with
    | some i => some (i + 1)
    | none => if c = sep then some 0 else none

/-- The call `strings.Index(s, sub)`; `none` is `-1`. -/
def index (sub : List Nat) : List Nat → Option Nat
  | [] => if sub.isEmpty then some 0 else none
  | c :: s =>
    if sub.isPrefixOf (c :: s) then some 0
    else (index sub s).map (· + 1)

/-- The function `getScheme`: the scheme and the rest, or the error
"missing protocol scheme".  The first argument is the loop index `i`, the
second the bytes `rawURL[:i]` already read, the third `rawURL[i:]`. -/
def getSchemeLoop : Nat → List Nat → List Nat → Except ParseError (List Nat × List Nat)
  | _, seen, [] => .ok ([], seen)
  | i, seen, c :: rest =>
    if isLetter c then getSchemeLoop (i + 1) (seen ++ [c]) rest
    else if isDigit c || c = b '+' || c = b '-' || c = b '.' then
      if i = 0 then .ok ([], seen ++ c :: rest)
      else getSchemeLoop (i + 1) (seen ++ [c]) rest
    else if c = b ':' then
      if i = 0 then .error .missingProtocolScheme
      else .ok (seen, rest)
    else .ok ([], seen ++ c :: rest)

/-- The function `getScheme(rawURL)`. -/
def getScheme (rawURL : List Nat) : Except ParseError (List Nat × List Nat) :=
  getSchemeLoop 0 [] rawURL

/-- The function `shouldEscape(c, encodeHost)`. -/
def shouldEscapeHost (c : Nat) : Bool :=
  if isLetter c || isDigit c then false
  else if c ∈ [b '!', b '$', b '&', 39, b '(', b ')', b '*', b '+', b ',', b ';',
      b '=', b ':', b '[', b ']', b '<', b '>', b '"'] then false
  else if c ∈ [b '-', b '_', b '.', b '~'] then false
  else true

/-- The validating first loop of `unescape(s, mode)`: the error it returns, if
any.  The second loop only builds the unescaped string and cannot fail. -/
def unescape (mode : Encoding) : List Nat → Option ParseError
  | [] => none
  | c :: s =>
    if c = b '%' then
      match s with
      | h1 :: h2 :: s' =>
        if !ishex h1 || !ishex h2 then some .escapeError
        else if mode = .encodeHost && unhex h1 < 8 && [c, h1, h2] ≠ [b '%', b '2', b '5'] then
          some .escapeError
        else if mode = .encodeZone && [c, h1, h2] ≠ [b '%', b '2', b '5']
            && (unhex h1 <<< 4 ||| unhex h2) % 256 ≠ b ' '
            && shouldEscapeHost ((unhex h1 <<< 4 ||| unhex h2) % 256) then
          some .escapeError
        else unescape mode s'
      | _ => some .escapeError
    else if c = b '+' then unescape mode s
    else if (mode = .encodeHost || mode = .encodeZone) && c < 0x80 && shouldEscapeHost c then
      some .invalidHostError
    else unescape mode s

/-- The function `validOptionalPort`. -/
def validOptionalPort : List Nat → Bool
  | [] => true
  | c :: port => c = b ':' && port.all isDigit

/-- The function `validUserinfo`. -/
def validUserinfo (s : List Nat) : Bool :=
  s.all fun r => isLetter r || isDigit r ||
    r ∈ [b '-', b '.', b '_', b ':', b '~', b '!', b '$', b '&', 39, b '(', b ')',
      b '*', b '+', b ',', b ';', b '=', b '%', b '@']

/-- The function `parseHost`: the error it returns, if any. -/
def parseHost (host : List Nat) : Option ParseError :=
  if [b '['].isPrefixOf host then
    match lastIndex (b ']') host with
    | none => some .missingBracket
    | some i =>
      if !validOptionalPort (host.drop (i + 1)) then some .invalidPort
      else
        match index [b '%', b '2', b '5'] (host.take i) with
        | some zone =>
          (unescape .encodeHost (host.take zone)).orElse fun _ =>
          (unescape .encodeZone ((host.take i).drop zone)).orElse fun _ =>
          unescape .encodeHost (host.drop i)
        | none => unescape .encodeHost host
  else
    match lastIndex (b ':') host with
    | some i =>
      if !validOptionalPort (host.drop i) then some .invalidPort
      else unescape .encodeHost host
    | none => unescape .encodeHost host

/-- The function `parseAuthority`: the error it returns, if any. -/
def parseAuthority (authority : List Nat) : Option ParseError :=
  match lastIndex (b '@') authority with
  | none => parseHost authority
  | some i =>
    (parseHost (authority.drop (i + 1))).orElse fun _ =>
    if !validUserinfo (authority.take i) then some .invalidUserinfo
    else if !(authority.take i).contains (b ':') then
      unescape .encodeUserPassword (authority.take i)
    else
      (unescape .encodeUserPassword (cut (b ':') (authority.take i)).1).orElse fun _ =>
      unescape .encodeUserPassword (cut (b ':') (authority.take i)).2

/-- The function `parse(rawURL, false)`: the error it returns, if any. -/
def parse (rawURL : List Nat) : Option ParseError :=
  if stringContainsCTLByte rawURL then some .invalidControlCharacter
  else if rawURL = [b '*'] then none
  else
    match getScheme rawURL with
    | .error e => some e
    | .ok (scheme, rest) =>
      let rest :=
        if rest.getLast? = some (b '?') && rest.count (b '?') = 1 then rest.dropLast
        else (cut (b '?') rest).1
      if !([b '/'].isPrefixOf rest) && !scheme.isEmpty then none
      else if !([b '/'].isPrefixOf rest) && ((cut (b '/') rest).1).contains (b ':') then
        some .firstPathSegmentColon
      else if (!scheme.isEmpty || !([b '/', b '/', b '/'].isPrefixOf rest))
          && [b '/', b '/'].isPrefixOf rest then
        let authority := (rest.drop 2).takeWhile (· ≠ b '/')
        let rest := (rest.drop 2).dropWhile (· ≠ b '/')
        (parseAuthority authority).orElse fun _ => unescape .encodePath rest
      else unescape .encodePath rest

/-- The function `url.Parse(rawURL)`: the error it returns, `none` for `nil`. -/
def Parse (rawURL : String) : Option ParseError :=
  let u := (cut (b '#') (bytes rawURL)).1
  let frag := (cut (b '#') (bytes rawURL)).2
  (parse u).orElse fun _ =>
  if frag.isEmpty then none
  else unescape .encodeFragment frag

end url

/-! ## The program -/

/-- The errors built by the program with `fmt.Errorf`. -/
inductive GoError
  /-- The error `fmt.Errorf("invalid URL: %w", err)` wrapping the error of `url.Parse`. -/
  | invalidURL (cause : url.ParseError)
  /-- The error `fmt.Errorf("short URL not found")`. -/
  | shortURLNotFound
  deriving DecidableEq, Repr

/-- The two package-level maps `urlStore` (short code to URL) and
`reverseStore` (URL to short code). -/
structure Store where
  /-- The map `urlStore`. -/
  urlStore : GoMap
  /-- The map `reverseStore`. -/
  reverseStore : GoMap
  deriving DecidableEq, Repr

/-- The state at program start: both maps freshly made. -/
def Store.init : Store := { urlStore := GoMap.empty, reverseStore := GoMap.empty }

/-- The local `base62Chars` of `Base62Encoder`. -/
def base62Chars : List Char :=
  "0123456789ABCDEFGHIJKLMNOPQRSTUVWXYZabcdefghijklmnopqrstuvwxyz".data

/-- The indexing `base62Chars[i]`, which panics outside the string; here the
index is a remainder modulo 62, and the string has 62 bytes. -/
def base62At (i : Fin 62) : Char := base62Chars.get (i.cast (by decide))

/-- The loop `for num > 0 { result = append([]byte{base62Chars[num%62]}, result...); num = num / 62 }`
with a bound on the number of iterations: `none` when the bound is reached
while `num > 0` still holds. -/
def Base62Encoder.loop : Nat → Nat → List Char → Option (List Char)
  | 0, num, result => if num > 0 then none else some result
  | fuel + 1, num, result =>
    if num > 0 then
      loop fuel (num / 62) (base62At ⟨num % 62, Nat.mod_lt _ (by decide)⟩ :: result)
    else some result

/-- The function `Base62Encoder(hashedURL)`.  The loop is given `hashedURL`
iterations; `none` stands for a loop that does not finish within them. -/
def Base62Encoder (hashedURL : Nat) : Option (String × Option GoError) :=
  if hashedURL = 0 then some ("0", none)
  else
    match Base62Encoder.loop hashedURL hashedURL [] with
    | some result => some (String.mk result, none)
    | none => none

/-- The function `GenerateURL(ref)` run on the store `s`: the returned pair and
the store afterwards; `none` if the encoder loop does not finish. -/
def GenerateURL (s : Store) (ref : String) : Option ((String × Option GoError) × Store) :=
  match url.Parse ref with
  | some err => some (("", some (.invalidURL err)), s)
  | none =>
    match s.reverseStore.get ref with
    | some shortURL => some ((shortURL, none), s)
    | none =>
      let URLbytes := bytes ref
      let hashedURL := crc32.ChecksumIEEE URLbytes
      match Base62Encoder hashedURL with
      | none => none
      | some (_, some err) => some (("", some err), s)
      | some (shortURL, none) =>
        some ((shortURL, none),
          { urlStore := s.urlStore.set shortURL ref,
            reverseStore := s.reverseStore.set ref shortURL })

/-- The function `GetOriginalURL(shortURL)` run on the store `s`: the returned
pair and the store afterwards. -/
def GetOriginalURL (s : Store) (shortURL : String) : (String × Option GoError) × Store :=
  match s.urlStore.get shortURL with
  | some originalURL => ((originalURL, none), s)
  | none => (("", some .shortURLNotFound), s)

/-! ## Sequences of calls -/

/-- The store after the calls `GenerateURL(ref)` for the `ref`s of a list, in
order, the results being dropped; `none` if one of the calls does not finish. -/
def runGenerate : Store → List String → Option Store
  | s, [] => some s
  | s, ref :: refs =>
    match GenerateURL s ref with
    | some (_, s') => runGenerate s' refs
    | none => none

/-- A call of one of the two operations on the store. -/
inductive Call
  /-- A call `GenerateURL(ref)`. -/
  | generate (ref : String)
  /-- A call `GetOriginalURL(shortURL)`. -/
  | resolve (shortURL : String)
  deriving DecidableEq, Repr

/-- The URLs passed to `GenerateURL` in a sequence of calls. -/
def generated : List Call → List String
  | [] => []
  | .generate ref :: cs => ref :: generated cs
  | .resolve _ :: cs => generated cs

/-- The store after a sequence of calls of both kinds, in order. -/
def runCalls : Store → List Call → Option Store
  | s, [] => some s
  | s, .generate ref :: cs =>
    match GenerateURL s ref with
    | some (_, s') => runCalls s' cs
    | none => none
  | s, .resolve shortURL :: cs => runCalls (GetOriginalURL s shortURL).2 cs

/-- The fingerprint that `GenerateURL` computes for `ref`:
`crc32.ChecksumIEEE([]byte(ref))`. -/
def fingerprint (ref : String) : Nat := crc32.ChecksumIEEE (bytes ref)

/-- Membership in the alphabet `[0-9A-Za-z]`, by character ranges. -/
def isBase62Symbol (ch : Char) : Bool :=
  ('0'.toNat ≤ ch.toNat && ch.toNat ≤ '9'.toNat) ||
  ('A'.toNat ≤ ch.toNat && ch.toNat ≤ 'Z'.toNat) ||
  ('a'.toNat ≤ ch.toNat && ch.toNat ≤ 'z'.toNat)

/-! ## Definitions used in the proofs -/

/-- The symbol of a digit value: `base62Chars[d]`, and `'0'` outside the string. -/
def symbolOf (d : Nat) : Char := base62Chars.getD d '0'

/-- The digit values that `Base62Encoder` writes: those of `n` in base 62,
least significant first, and the single digit 0 for `n = 0`. -/
def digitsOf (n : Nat) : List Nat := if n = 0 then [0] else Nat.digits 62 n

/-- What holds of the store after the calls `GenerateURL(ref)` for the `ref`s
of `hist`: every entry of `reverseStore` maps a valid URL of `hist` to the
code of its fingerprint, which is a key of `urlStore`; and every entry of
`urlStore` has its mirror entry in `reverseStore`. -/
structure Inv (hist : List String) (s : Store) : Prop where
  reverse : ∀ u c, s.reverseStore.get u = some c →
    url.Parse u = none ∧ Base62Encoder (fingerprint u) = some (c, none) ∧ u ∈ hist ∧
      ∃ v, s.urlStore.get c = some v
  forward : ∀ c v, s.urlStore.get c = some v → s.reverseStore.get v = some c

/-! ## Reading a code back -/

/-- The digit value of a character: its index in `base62Chars` (62 for a
character that is not in it).  The program has no decoder; this is the
reading of a code that the round-trip property speaks of. -/
def digitValue (ch : Char) : Nat := base62Chars.indexOf ch

/-- A string read as a big-endian base-62 numeral. -/
def readBase62 (code : String) : Nat :=
  code.data.foldl (fun acc ch => acc * 62 + digitValue ch) 0

/-! ## Concurrent calls of `GenerateURL`

A call of `GenerateURL` touches the shared maps in two critical sections of
the mutex `mu`: the lookup of lines 37-42 under `mu.RLock()`, and the two
writes of lines 54-57 under `mu.Lock()`.  What it does outside them
(validation, hashing, encoding) reads and writes only its own locals.  A
write section excludes every other section, and read sections do not write, so
an execution of several calls is an interleaving of these sections, each taken
as one step. -/

/-- Where a call of `GenerateURL` stands. -/
inductive Thread
  /-- The call `GenerateURL(ref)` has not yet taken the read lock. -/
  | start (ref : String)
  /-- The lookup missed and `shortURL` is computed; the write lock is not yet taken. -/
  | computed (ref shortURL : String)
  /-- The call has returned `result`. -/
  | done (result : String × Option GoError)
  deriving DecidableEq, Repr

/-- Lines 31-51 as one step on the store `s`: validation, the read-locked
lookup, and on a miss hashing and encoding; `none` if the encoder loop does
not finish. -/
def lookupStep (s : Store) (ref : String) : Option Thread :=
  match url.Parse ref with
  | some err => some (.done ("", some (.invalidURL err)))
  | none =>
    match s.reverseStore.get ref with
    | some shortURL => some (.done (shortURL, none))
    | none =>
      match Base62Encoder (crc32.ChecksumIEEE (bytes ref)) with
      | none => none
      | some (_, some err) => some (.done ("", some err))
      | some (shortURL, none) => some (.computed ref shortURL)

/-- Lines 53-59 as one step on the store `s`: the write-locked assignments to
both maps, and the return. -/
def insertStep (s : Store) (ref shortURL : String) : Thread × Store :=
  (.done (shortURL, none),
    { urlStore := s.urlStore.set shortURL ref,
      reverseStore := s.reverseStore.set ref shortURL })

/-- The shared store and the calls in flight. -/
structure Sys where
  /-- The two maps. -/
  store : Store
  /-- The calls, by position. -/
  threads : List Thread
  deriving DecidableEq, Repr

/-- The scheduler lets call number `i` take its next step.  A call that has
returned, or a number that names no call, leaves the system as it is. -/
def Sys.step (sys : Sys) (i : Nat) : Option Sys :=
  match sys.threads[i]? with
  | none => some sys
  | some (.done _) => some sys
  | some (.start ref) =>
    match lookupStep sys.store ref with
    | none => none
    | some t => some { store := sys.store, threads := sys.threads.set i t }
  | some (.computed ref shortURL) =>
    some { store := (insertStep sys.store ref shortURL).2,
           threads := sys.threads.set i (insertStep sys.store ref shortURL).1 }

/-- The system after a schedule: the list of the call numbers that step, in order. -/
def runSched : Sys → List Nat → Option Sys
  | sys, [] => some sys
  | sys, i :: sched =>
    match sys.step i with
    | some sys' => runSched sys' sched
    | none => none

/-- How far a call is: 0 before the lookup, 1 before the insert, 2 when returned. -/
def Thread.rank : Thread → Nat
  | .start _ => 0
  | .computed _ _ => 1
  | .done _ => 2

/-- The rank of call number `j`, and 2 if there is no such call. -/
def Sys.rankAt (sys : Sys) (j : Nat) : Nat :=
  match sys.threads[j]? with
  | some t => t.rank
  | none => 2

/-- What holds of the system while calls `GenerateURL(u)` race on a store that
was `s` when they started, `u` being new in `s` and `c` its code: every call is
before its lookup, before its insert with `c` computed, or has returned `c`;
and the store is `s` with no call returned yet, or `s` with both maps written. -/
structure Race (s : Store) (u c : String) (sys : Sys) : Prop where
  threads : ∀ t ∈ sys.threads, t = .start u ∨ t = .computed u c ∨ t = .done (c, none)
  store : (sys.store = s ∧ ∀ t ∈ sys.threads, t ≠ .done (c, none)) ∨
    sys.store = { urlStore := s.urlStore.set c u, reverseStore := s.reverseStore.set u c }

/-! ## Lemmas on Go maps -/

theorem GoMap.get_set_self (m : GoMap) (k v : String) : (m.set k v).get k = some v := by
  induction m with
  | nil => simp [GoMap.set, GoMap.get]
  | cons e rest ih =>
    obtain ⟨k', v'⟩ := e
    by_cases h : k' = k
    · simp [GoMap.set, GoMap.get, h]
    · simp [GoMap.set, GoMap.get, h, ih]

theorem GoMap.get_set_of_ne (m : GoMap) (k v k0 : String) (hne : k0 ≠ k) :
    (m.set k v).get k0 = m.get k0 := by
  induction m with
  | nil =>
    have h : ¬ k = k0 := fun h => hne h.symm
    simp [GoMap.set, GoMap.get, h]
  | cons e rest ih =>
    obtain ⟨k', v'⟩ := e
    by_cases h : k' = k
    · subst h
      have h2 : ¬ k' = k0 := fun h => hne h.symm
      simp [GoMap.set, GoMap.get, h2]
    · by_cases h3 : k' = k0
      · subst h3
        simp [GoMap.set, GoMap.get, h]
      · simp [GoMap.set, GoMap.get, h, h3, ih]

theorem GoMap.len_set (m : GoMap) (k v : String) :
    (m.set k v).len = if m.get k = none then m.len + 1 else m.len := by
  induction m with
  | nil => simp [GoMap.set, GoMap.get, GoMap.len]
  | cons e rest ih =>
    obtain ⟨k', v'⟩ := e
    by_cases h : k' = k
    · simp [GoMap.set, GoMap.get, GoMap.len, h]
    · simp only [GoMap.len] at ih
      simp only [GoMap.set, GoMap.get, GoMap.len, h, if_false, List.length_cons, ih]
      split <;> rfl

/-! ## Lemmas on the encoder -/

theorem base62At_eq (i : Fin 62) : base62At i = symbolOf i.val := by
  revert i
  decide

theorem symbolOf_isBase62Symbol : ∀ d < 62, isBase62Symbol (symbolOf d) = true := by
  decide

theorem symbolOf_injOn : ∀ d < 62, ∀ e < 62, symbolOf d = symbolOf e → d = e := by
  decide

/-- With at least `num` iterations allowed the loop finishes, and it has put
the base-62 digits of `num`, most significant first, in front of `result`. -/
theorem Base62Encoder.loop_eq (fuel : Nat) :
    ∀ num result, num ≤ fuel →
      Base62Encoder.loop fuel num result
        = some ((Nat.digits 62 num).reverse.map symbolOf ++ result) := by
  induction fuel with
  | zero =>
    intro num result h
    have h0 : num = 0 := Nat.le_zero.mp h
    subst h0
    simp [Base62Encoder.loop]
  | succ fuel ih =>
    intro num result h
    by_cases hpos : num > 0
    · have hdiv : num / 62 ≤ fuel := by
        have := Nat.div_lt_self hpos (by decide : 1 < 62)
        omega
      rw [Base62Encoder.loop, if_pos hpos, ih _ _ hdiv, base62At_eq,
        Nat.digits_def' (by decide : 1 < 62) hpos]
      simp
    · have h0 : num = 0 := by omega
      subst h0
      simp [Base62Encoder.loop]

theorem digitsOf_lt (n : Nat) : ∀ d ∈ digitsOf n, d < 62 := by
  intro d hd
  unfold digitsOf at hd
  split at hd
  · simp at hd; omega
  · exact Nat.digits_lt_base (by decide) hd

theorem ofDigits_digitsOf (n : Nat) : Nat.ofDigits 62 (digitsOf n) = n := by
  unfold digitsOf
  split
  · next h => simp [h]
  · exact Nat.ofDigits_digits 62 n

/-- The encoder is total and never returns an error: its result is the string
of the symbols of `digitsOf n`, most significant first. -/
theorem Base62Encoder_eq (n : Nat) :
    Base62Encoder n = some (String.mk ((digitsOf n).reverse.map symbolOf), none) := by
  unfold Base62Encoder digitsOf
  by_cases h : n = 0
  · subst h
    simp
    decide
  · rw [if_neg h, Base62Encoder.loop_eq n n [] (le_refl n), if_neg h]
    simp

theorem map_symbolOf_inj : ∀ (l1 l2 : List Nat), (∀ d ∈ l1, d < 62) → (∀ d ∈ l2, d < 62) →
    l1.map symbolOf = l2.map symbolOf → l1 = l2 := by
  intro l1
  induction l1 with
  | nil =>
    intro l2 _ _ h
    cases l2 with
    | nil => rfl
    | cons b l2 => simp at h
  | cons a l1 ih =>
    intro l2 h1 h2 h
    cases l2 with
    | nil => simp at h
    | cons b l2 =>
      simp only [List.map_cons, List.cons.injEq] at h
      have hab : a = b :=
        symbolOf_injOn a (h1 a (by simp)) b (h2 b (by simp)) h.1
      have hl : l1 = l2 :=
        ih l2 (fun d hd => h1 d (by simp [hd])) (fun d hd => h2 d (by simp [hd])) h.2
      rw [hab, hl]

/-- Two numbers with the same code are equal. -/
theorem Base62Encoder_inj (n m : Nat) (c : String)
    (hn : Base62Encoder n = some (c, none)) (hm : Base62Encoder m = some (c, none)) : n = m := by
  rw [Base62Encoder_eq] at hn hm
  simp only [Option.some.injEq, Prod.mk.injEq, and_true] at hn hm
  have h : (digitsOf n).reverse.map symbolOf = (digitsOf m).reverse.map symbolOf := by
    have := hn.trans hm.symm
    exact congrArg String.data this
  have h2 := map_symbolOf_inj _ _
    (fun d hd => digitsOf_lt n d (List.mem_reverse.mp hd))
    (fun d hd => digitsOf_lt m d (List.mem_reverse.mp hd)) h
  have h3 : digitsOf n = digitsOf m := List.reverse_injective h2
  rw [← ofDigits_digitsOf n, ← ofDigits_digitsOf m, h3]

/-! ## The outcomes of `GenerateURL` -/

/-- A call of `GenerateURL` ends in one of three ways: the URL is rejected and
the store untouched; the URL is found in `reverseStore` and the store
untouched; the URL is new and both maps are written with the code of its
fingerprint. -/
theorem GenerateURL_cases (s : Store) (ref : String) :
    (∃ err, url.Parse ref = some err ∧
        GenerateURL s ref = some (("", some (.invalidURL err)), s)) ∨
    (∃ c, url.Parse ref = none ∧ s.reverseStore.get ref = some c ∧
        GenerateURL s ref = some ((c, none), s)) ∨
    (∃ c, url.Parse ref = none ∧ s.reverseStore.get ref = none ∧
        Base62Encoder (fingerprint ref) = some (c, none) ∧
        GenerateURL s ref = some ((c, none),
          { urlStore := s.urlStore.set c ref, reverseStore := s.reverseStore.set ref c })) := by
  cases hp : url.Parse ref with
  | some err =>
    left
    exact ⟨err, rfl, by simp [GenerateURL, hp]⟩
  | none =>
    right
    cases hr : s.reverseStore.get ref with
    | some c =>
      left
      exact ⟨c, rfl, rfl, by simp [GenerateURL, hp, hr]⟩
    | none =>
      right
      have he := Base62Encoder_eq (fingerprint ref)
      refine ⟨_, rfl, rfl, he, ?_⟩
      unfold fingerprint at he
      simp [GenerateURL, hp, hr, he, fingerprint]

/-- A successful call returns the code of the fingerprint whenever the URL was
not yet in `reverseStore`, and the stored code otherwise. -/
theorem GenerateURL_ok (s s' : Store) (ref c : String)
    (h : GenerateURL s ref = some ((c, none), s')) :
    url.Parse ref = none ∧
    ((s.reverseStore.get ref = some c ∧ s' = s) ∨
     (s.reverseStore.get ref = none ∧ Base62Encoder (fingerprint ref) = some (c, none) ∧
        s' = { urlStore := s.urlStore.set c ref, reverseStore := s.reverseStore.set ref c })) := by
  rcases GenerateURL_cases s ref with ⟨err, _, hg⟩ | ⟨c0, hp, hr, hg⟩ | ⟨c0, hp, hr, he, hg⟩
  · rw [hg] at h
    simp at h
  · rw [hg] at h
    simp only [Option.some.injEq, Prod.mk.injEq, and_true] at h
    obtain ⟨hc, hs⟩ := h
    subst hc hs
    exact ⟨hp, Or.inl ⟨hr, rfl⟩⟩
  · rw [hg] at h
    simp only [Option.some.injEq, Prod.mk.injEq, and_true] at h
    obtain ⟨hc, hs⟩ := h
    subst hc
    exact ⟨hp, Or.inr ⟨hr, he, hs.symm⟩⟩

/-! ## The invariant of the store -/

theorem Inv.init : Inv [] Store.init :=
  ⟨fun u c h => by simp [Store.init, GoMap.empty, GoMap.get] at h,
   fun c v h => by simp [Store.init, GoMap.empty, GoMap.get] at h⟩

theorem Inv.mono {hist hist' : List String} {s : Store} (h : Inv hist s)
    (hsub : ∀ u ∈ hist, u ∈ hist') : Inv hist' s :=
  ⟨fun u c hu =>
    let ⟨h1, h2, h3, h4⟩ := h.reverse u c hu
    ⟨h1, h2, hsub u h3, h4⟩, h.forward⟩

theorem Inv.step {hist : List String} {s s' : Store} {ref : String}
    {r : String × Option GoError} (h : Inv hist s)
    (hg : GenerateURL s ref = some (r, s')) : Inv (ref :: hist) s' := by
  have hmono : Inv (ref :: hist) s := h.mono fun u hu => List.mem_cons_of_mem _ hu
  rcases GenerateURL_cases s ref with ⟨err, _, hg'⟩ | ⟨c0, _, _, hg'⟩ | ⟨c0, hp, hr, he, hg'⟩
  · rw [hg'] at hg
    simp only [Option.some.injEq, Prod.mk.injEq] at hg
    rw [← hg.2]
    exact hmono
  · rw [hg'] at hg
    simp only [Option.some.injEq, Prod.mk.injEq] at hg
    rw [← hg.2]
    exact hmono
  · rw [hg'] at hg
    simp only [Option.some.injEq, Prod.mk.injEq] at hg
    rw [← hg.2]
    constructor
    · intro u c hu
      simp only at hu ⊢
      by_cases hur : u = ref
      · subst hur
        rw [GoMap.get_set_self] at hu
        simp only [Option.some.injEq] at hu
        subst hu
        exact ⟨hp, he, List.mem_cons_self _ _, u, GoMap.get_set_self _ _ _⟩
      · rw [GoMap.get_set_of_ne _ _ _ _ hur] at hu
        obtain ⟨h1, h2, h3, v, h4⟩ := h.reverse u c hu
        refine ⟨h1, h2, List.mem_cons_of_mem _ h3, ?_⟩
        by_cases hc : c = c0
        · subst hc
          exact ⟨ref, GoMap.get_set_self _ _ _⟩
        · exact ⟨v, by rw [GoMap.get_set_of_ne _ _ _ _ hc]; exact h4⟩
    · intro c v hc
      simp only at hc ⊢
      by_cases hcc : c = c0
      · subst hcc
        rw [GoMap.get_set_self] at hc
        simp only [Option.some.injEq] at hc
        subst hc
        exact GoMap.get_set_self _ _ _
      · rw [GoMap.get_set_of_ne _ _ _ _ hcc] at hc
        have hv := h.forward c v hc
        have hne : v ≠ ref := by
          intro hv'
          subst hv'
          rw [hr] at hv
          simp at hv
        rw [GoMap.get_set_of_ne _ _ _ _ hne]
        exact hv

theorem GenerateURL_total (s : Store) (ref : String) : ∃ r s', GenerateURL s ref = some (r, s') := by
  rcases GenerateURL_cases s ref with ⟨_, _, hg⟩ | ⟨_, _, _, hg⟩ | ⟨_, _, _, _, hg⟩ <;>
    exact ⟨_, _, hg⟩

theorem Inv.run {refs : List String} :
    ∀ {hist : List String} {s s' : Store}, Inv hist s → runGenerate s refs = some s' →
      Inv (refs.reverse ++ hist) s' := by
  induction refs with
  | nil =>
    intro hist s s' h hrun
    simp only [runGenerate, Option.some.injEq] at hrun
    subst hrun
    simpa using h
  | cons ref refs ih =>
    intro hist s s' h hrun
    obtain ⟨r, s1, hg⟩ := GenerateURL_total s ref
    simp only [runGenerate, hg] at hrun
    have := ih (h.step hg) hrun
    simpa using this

/-- The invariant holds in every store reached from the initial one by
`GenerateURL` calls. -/
theorem Inv.of_runGenerate {refs : List String} {s : Store}
    (hrun : runGenerate Store.init refs = some s) : Inv refs s :=
  (Inv.run Inv.init hrun).mono fun u hu => by simpa using hu

theorem runGenerate_total (refs : List String) : ∀ s, ∃ s', runGenerate s refs = some s' := by
  induction refs with
  | nil => exact fun s => ⟨s, rfl⟩
  | cons ref refs ih =>
    intro s
    obtain ⟨r, s1, hg⟩ := GenerateURL_total s ref
    obtain ⟨s', hs'⟩ := ih s1
    exact ⟨s', by simp only [runGenerate, hg, hs']⟩

theorem runCalls_eq_runGenerate (cs : List Call) :
    ∀ s, runCalls s cs = runGenerate s (generated cs) := by
  induction cs with
  | nil => exact fun s => rfl
  | cons c cs ih =>
    intro s
    cases c with
    | generate ref =>
      simp only [runCalls, generated, runGenerate]
      cases GenerateURL s ref with
      | none => rfl
      | some p => exact ih p.2
    | resolve shortURL =>
      simp only [runCalls, generated]
      rw [ih]
      unfold GetOriginalURL
      split <;> rfl

/-- In a store reached by `GenerateURL` calls, a successful call returns the
code of the fingerprint of its argument. -/
theorem GenerateURL_code {hist : List String} {s s' : Store} {ref c : String} (h : Inv hist s)
    (hg : GenerateURL s ref = some ((c, none), s')) :
    Base62Encoder (fingerprint ref) = some (c, none) := by
  rcases (GenerateURL_ok s s' ref c hg).2 with ⟨hr, _⟩ | ⟨_, he, _⟩
  · exact (h.reverse ref c hr).2.1
  · exact he

/-- In a store reached by `GenerateURL` calls, `GenerateURL` succeeds on every
valid URL, with the code of its fingerprint. -/
theorem GenerateURL_valid {hist : List String} {s : Store} {ref : String} (h : Inv hist s)
    (hvalid : url.Parse ref = none) :
    ∃ c s', GenerateURL s ref = some ((c, none), s') ∧
      Base62Encoder (fingerprint ref) = some (c, none) := by
  rcases GenerateURL_cases s ref with ⟨err, hp, _⟩ | ⟨c, _, _, hg⟩ | ⟨c, _, _, _, hg⟩
  · rw [hvalid] at hp
    simp at hp
  · exact ⟨c, _, hg, GenerateURL_code h hg⟩
  · exact ⟨c, _, hg, GenerateURL_code h hg⟩

/-! ## Further lemmas on the encoder -/

/-- The loop finishes as soon as it is allowed one iteration per base-62 digit
of `num`. -/
theorem Base62Encoder.loop_eq_of_length (fuel : Nat) :
    ∀ num result, (Nat.digits 62 num).length ≤ fuel →
      Base62Encoder.loop fuel num result
        = some ((Nat.digits 62 num).reverse.map symbolOf ++ result) := by
  induction fuel with
  | zero =>
    intro num result h
    have hnil : Nat.digits 62 num = [] := List.length_eq_zero.mp (Nat.le_zero.mp h)
    have h0 : num = 0 := Nat.digits_eq_nil_iff_eq_zero.mp hnil
    subst h0
    simp [Base62Encoder.loop]
  | succ fuel ih =>
    intro num result h
    by_cases hpos : num > 0
    · rw [Nat.digits_def' (by decide : 1 < 62) hpos] at h
      have hlen : (Nat.digits 62 (num / 62)).length ≤ fuel := by
        simp only [List.length_cons] at h
        omega
      rw [Base62Encoder.loop, if_pos hpos, ih _ _ hlen, base62At_eq,
        Nat.digits_def' (by decide : 1 < 62) hpos]
      simp
    · have h0 : num = 0 := by omega
      subst h0
      simp [Base62Encoder.loop]

/-- The number of base-62 digits of `n` is the least `k` with `n < 62 ^ k`. -/
theorem digits_length_le_iff (n k : Nat) : (Nat.digits 62 n).length ≤ k ↔ n < 62 ^ k := by
  constructor
  · intro h
    exact lt_of_lt_of_le (Nat.lt_base_pow_length_digits (by decide : 1 < 62))
      (Nat.pow_le_pow_right (by decide) h)
  · intro h
    by_cases h0 : n = 0
    · subst h0
      simp
    · have h1 := Nat.base_pow_length_digits_le 62 n (by decide) h0
      have h2 : 62 ^ (Nat.digits 62 n).length < 62 ^ (k + 1) := by
        rw [Nat.pow_succ]
        omega
      have h3 := (Nat.pow_lt_pow_iff_right (by decide : 1 < 62)).mp h2
      omega

theorem digitsOf_length_pos (n : Nat) : 1 ≤ (digitsOf n).length := by
  unfold digitsOf
  split
  · simp
  · next h =>
    have hne : Nat.digits 62 n ≠ [] := Nat.digits_ne_nil_iff_ne_zero.mpr h
    exact List.length_pos.mpr hne

theorem digitsOf_length_le (n k : Nat) (hk : 1 ≤ k) (h : n < 62 ^ k) :
    (digitsOf n).length ≤ k := by
  unfold digitsOf
  split
  · simpa using hk
  · exact (digits_length_le_iff n k).mpr h

/-- The code of `n`, when there is one, is the string of the symbols of
`digitsOf n`, most significant first. -/
theorem Base62Encoder_data (n : Nat) (code : String)
    (h : Base62Encoder n = some (code, none)) :
    code.data = (digitsOf n).reverse.map symbolOf := by
  rw [Base62Encoder_eq] at h
  simp only [Option.some.injEq, Prod.mk.injEq, and_true] at h
  rw [← h]

theorem crc32.ChecksumIEEE_lt (data : List Nat) : crc32.ChecksumIEEE data < 2 ^ 32 := by
  unfold crc32.ChecksumIEEE crc32.simpleUpdate
  exact Nat.mod_lt _ (by decide)

theorem digitValue_symbolOf : ∀ d < 62, digitValue (symbolOf d) = d := by
  decide

theorem foldl_symbolOf (ds : List Nat) (hds : ∀ d ∈ ds, d < 62) :
    (ds.reverse.map symbolOf).foldl (fun acc ch => acc * 62 + digitValue ch) 0
      = Nat.ofDigits 62 ds := by
  induction ds with
  | nil => simp
  | cons d ds ih =>
    have hd : digitValue (symbolOf d) = d := digitValue_symbolOf d (hds d (by simp))
    have ih' := ih fun e he => hds e (by simp [he])
    simp only [List.reverse_cons, List.map_append, List.foldl_append, List.map_cons,
      List.map_nil, List.foldl_cons, List.foldl_nil, ih', hd, Nat.ofDigits_cons]
    ring

/-! ## Lemmas on concurrent calls -/

theorem GoMap.set_set_self (m : GoMap) (k v : String) : (m.set k v).set k v = m.set k v := by
  induction m with
  | nil => simp [GoMap.set]
  | cons e rest ih =>
    obtain ⟨k', v'⟩ := e
    by_cases h : k' = k
    · simp [GoMap.set, h]
    · simp [GoMap.set, h, ih]

theorem lookupStep_miss {s : Store} {u c : String} (hvalid : url.Parse u = none)
    (hnew : s.reverseStore.get u = none)
    (he : Base62Encoder (fingerprint u) = some (c, none)) :
    lookupStep s u = some (.computed u c) := by
  unfold fingerprint at he
  simp [lookupStep, hvalid, hnew, he]

theorem lookupStep_hit {s : Store} {u c : String} (hvalid : url.Parse u = none)
    (hr : s.reverseStore.get u = some c) :
    lookupStep s u = some (.done (c, none)) := by
  simp [lookupStep, hvalid, hr]

/-- A call scheduled alone, for its two steps, is the sequential `GenerateURL`. -/
theorem runSched_single (s : Store) (ref : String) :
    runSched ⟨s, [.start ref]⟩ [0, 0]
      = (GenerateURL s ref).map fun p => ⟨p.2, [.done p.1]⟩ := by
  obtain ⟨code, he⟩ : ∃ code, Base62Encoder (fingerprint ref) = some (code, none) :=
    ⟨_, Base62Encoder_eq _⟩
  have hdone : ∀ (s0 : Store) (r : String × Option GoError),
      Sys.step ⟨s0, [.done r]⟩ 0 = some ⟨s0, [.done r]⟩ := fun s0 r => rfl
  cases hp : url.Parse ref with
  | some err =>
    have h1 : Sys.step ⟨s, [.start ref]⟩ 0
        = some ⟨s, [.done ("", some (.invalidURL err))]⟩ := by
      simp [Sys.step, lookupStep, hp]
    have hg : GenerateURL s ref = some (("", some (.invalidURL err)), s) := by
      simp [GenerateURL, hp]
    simp only [runSched, h1, hdone, hg, Option.map_some']
  | none =>
    cases hr : s.reverseStore.get ref with
    | some c =>
      have h1 : Sys.step ⟨s, [.start ref]⟩ 0 = some ⟨s, [.done (c, none)]⟩ := by
        simp [Sys.step, lookupStep, hp, hr]
      have hg : GenerateURL s ref = some ((c, none), s) := by
        simp [GenerateURL, hp, hr]
      simp only [runSched, h1, hdone, hg, Option.map_some']
    | none =>
      have h1 : Sys.step ⟨s, [.start ref]⟩ 0 = some ⟨s, [.computed ref code]⟩ := by
        simp [Sys.step, lookupStep_miss hp hr he]
      have h2 : Sys.step ⟨s, [.computed ref code]⟩ 0
          = some ⟨{ urlStore := s.urlStore.set code ref,
                    reverseStore := s.reverseStore.set ref code }, [.done (code, none)]⟩ := by
        simp [Sys.step, insertStep]
      have hg : GenerateURL s ref = some ((code, none),
          { urlStore := s.urlStore.set code ref,
            reverseStore := s.reverseStore.set ref code }) := by
        unfold fingerprint at he
        simp only [GenerateURL, hp, hr, he]
      simp only [runSched, h1, h2, hg, Option.map_some']

theorem Sys.rankAt_of_get {sys : Sys} {i : Nat} {t : Thread} (hget : sys.threads[i]? = some t) :
    sys.rankAt i = t.rank := by
  simp [Sys.rankAt, hget]

theorem Sys.rankAt_set (sys : Sys) (store' : Store) (i j : Nat) (t t' : Thread)
    (hget : sys.threads[i]? = some t) :
    Sys.rankAt ⟨store', sys.threads.set i t'⟩ j = if i = j then t'.rank else sys.rankAt j := by
  obtain ⟨hlt, _⟩ := List.getElem?_eq_some.mp hget
  unfold Sys.rankAt
  simp only [List.getElem?_set]
  by_cases hij : i = j
  · subst hij
    simp [hlt]
  · simp [hij]

theorem Sys.after_set (sys : Sys) (store' : Store) (i : Nat) (t t' : Thread)
    (hget : sys.threads[i]? = some t) (hrank : t.rank + 1 ≤ t'.rank) :
    (∀ j, sys.rankAt j ≤ Sys.rankAt ⟨store', sys.threads.set i t'⟩ j) ∧
    sys.rankAt i + 1 ≤ Sys.rankAt ⟨store', sys.threads.set i t'⟩ i := by
  have hi := Sys.rankAt_of_get hget
  constructor
  · intro j
    rw [Sys.rankAt_set sys store' i j t t' hget]
    by_cases hij : i = j
    · rw [if_pos hij, ← hij, hi]
      omega
    · rw [if_neg hij]
  · rw [Sys.rankAt_set sys store' i i t t' hget, if_pos rfl, hi]
    exact hrank

/-- One step of the scheduler: it is defined, keeps the invariant and the
number of calls, lowers no rank, and raises the rank of the call it schedules
unless that call has returned. -/
theorem Race.step_spec {s : Store} {u c : String} {sys : Sys}
    (hvalid : url.Parse u = none) (hnew : s.reverseStore.get u = none)
    (he : Base62Encoder (fingerprint u) = some (c, none))
    (h : Race s u c sys) (i : Nat) :
    ∃ sys', sys.step i = some sys' ∧ Race s u c sys' ∧
      sys'.threads.length = sys.threads.length ∧
      (∀ j, sys.rankAt j ≤ sys'.rankAt j) ∧
      (2 ≤ sys'.rankAt i ∨ sys.rankAt i + 1 ≤ sys'.rankAt i) := by
  cases hget : sys.threads[i]? with
  | none =>
    refine ⟨sys, by simp [Sys.step, hget], h, rfl, fun j => le_refl _, Or.inl ?_⟩
    simp [Sys.rankAt, hget]
  | some t =>
    have hmem : t ∈ sys.threads := List.getElem?_mem hget
    rcases h.threads t hmem with ht | ht | ht
    · subst ht
      rcases h.store with ⟨hs, hnd⟩ | hs
      · have hl : lookupStep sys.store u = some (.computed u c) := by
          rw [hs]
          exact lookupStep_miss hvalid hnew he
        obtain ⟨hmono, hup⟩ := Sys.after_set sys sys.store i _ (.computed u c) hget (le_refl _)
        refine ⟨⟨sys.store, sys.threads.set i (.computed u c)⟩, by simp [Sys.step, hget, hl],
          ⟨?_, Or.inl ⟨hs, ?_⟩⟩, by simp, hmono, Or.inr hup⟩
        · intro t ht
          rcases List.mem_or_eq_of_mem_set ht with h1 | h1
          · exact h.threads t h1
          · exact Or.inr (Or.inl h1)
        · intro t ht
          rcases List.mem_or_eq_of_mem_set ht with h1 | h1
          · exact hnd t h1
          · rw [h1]
            simp
      · have hl : lookupStep sys.store u = some (.done (c, none)) := by
          rw [hs]
          exact lookupStep_hit hvalid (GoMap.get_set_self _ _ _)
        obtain ⟨hmono, hup⟩ := Sys.after_set sys sys.store i _ (.done (c, none)) hget
          (by simp [Thread.rank])
        refine ⟨⟨sys.store, sys.threads.set i (.done (c, none))⟩, by simp [Sys.step, hget, hl],
          ⟨?_, Or.inr hs⟩, by simp, hmono, Or.inr hup⟩
        intro t ht
        rcases List.mem_or_eq_of_mem_set ht with h1 | h1
        · exact h.threads t h1
        · exact Or.inr (Or.inr h1)
    · subst ht
      obtain ⟨hmono, hup⟩ := Sys.after_set sys (insertStep sys.store u c).2 i _
        (.done (c, none)) hget (le_refl _)
      refine ⟨⟨(insertStep sys.store u c).2, sys.threads.set i (.done (c, none))⟩,
        by simp [Sys.step, hget, insertStep], ⟨?_, Or.inr ?_⟩, by simp, hmono, Or.inr hup⟩
      · intro t ht
        rcases List.mem_or_eq_of_mem_set ht with h1 | h1
        · exact h.threads t h1
        · exact Or.inr (Or.inr h1)
      · rcases h.store with ⟨hs, _⟩ | hs
        · simp [insertStep, hs]
        · simp [insertStep, hs, GoMap.set_set_self]
    · subst ht
      refine ⟨sys, by simp [Sys.step, hget], h, rfl, fun j => le_refl _, Or.inl ?_⟩
      simp [Sys.rankAt, hget, Thread.rank]

/-- A schedule: it is defined, keeps the invariant and the number of calls, and
a call that was scheduled `k` times has gained `k` ranks or has returned. -/
theorem Race.run_spec {s : Store} {u c : String}
    (hvalid : url.Parse u = none) (hnew : s.reverseStore.get u = none)
    (he : Base62Encoder (fingerprint u) = some (c, none)) (sched : List Nat) :
    ∀ sys, Race s u c sys →
      ∃ sys', runSched sys sched = some sys' ∧ Race s u c sys' ∧
        sys'.threads.length = sys.threads.length ∧
        ∀ j, 2 ≤ sys'.rankAt j ∨ sys.rankAt j + sched.count j ≤ sys'.rankAt j := by
  induction sched with
  | nil =>
    intro sys h
    exact ⟨sys, rfl, h, rfl, fun j => Or.inr (by simp)⟩
  | cons i sched ih =>
    intro sys h
    obtain ⟨sys1, hstep, h1, hlen1, hmono, hup⟩ := Race.step_spec hvalid hnew he h i
    obtain ⟨sys', hrun, h', hlen', hrank⟩ := ih sys1 h1
    refine ⟨sys', by simp only [runSched, hstep, hrun], h', hlen'.trans hlen1, fun j => ?_⟩
    have hj := hrank j
    have hm := hmono j
    rw [List.count_cons]
    by_cases hij : i = j
    · subst hij
      simp only [beq_self_eq_true, if_true]
      have hup' : 2 ≤ sys'.rankAt i ∨ sys.rankAt i + 1 ≤ sys1.rankAt i := by
        rcases hup with h2 | h2
        · left
          rcases hj with h3 | h3
          · exact h3
          · omega
        · exact Or.inr h2
      omega
    · have hne : (i == j) = false := by simpa using hij
      simp only [hne, Bool.false_eq_true, if_false, Nat.add_zero]
      omega

/-! ## The claims -/

set_option maxRecDepth 100000

/-- C1, as stated, fails: after `GenerateURL("plumless")` and
`GenerateURL("buckeroo")`, two valid URLs with the same CRC-32, the call
`GenerateURL("plumless")` succeeds with the code `1QOga5`, and
`GetOriginalURL("1QOga5")` returns `buckeroo`, not `plumless`. -/
theorem C1_inverse_consistency_fails :
    ∃ s, runGenerate Store.init ["plumless", "buckeroo"] = some s ∧
      GenerateURL s "plumless" = some (("1QOga5", none), s) ∧
      (GetOriginalURL s "1QOga5").1 = ("buckeroo", none) ∧
      (GetOriginalURL s "1QOga5").1 ≠ ("plumless", none) :=
  ⟨{ urlStore := [("1QOga5", "buckeroo")],
     reverseStore := [("plumless", "1QOga5"), ("buckeroo", "1QOga5")] },
   by decide, by decide, by decide, by decide⟩

/-- C1, amended: in every store reached from the initial store by
`GenerateURL` calls none of which was given a URL other than `u` with the
CRC-32 of `u`, if `GenerateURL(u)` succeeds with code `c` then
`GetOriginalURL(c)`, called right afterwards, succeeds and returns `u`, and
leaves the store as it is. -/
theorem C1_inverse_consistency (refs : List String) (s s' : Store) (u c : String)
    (hrun : runGenerate Store.init refs = some s)
    (hfree : ∀ v ∈ refs, fingerprint v = fingerprint u → v = u)
    (hg : GenerateURL s u = some ((c, none), s')) :
    GetOriginalURL s' c = ((u, none), s') := by
  have hinv := Inv.of_runGenerate hrun
  have hget : s'.urlStore.get c = some u := by
    rcases (GenerateURL_ok s s' u c hg).2 with ⟨hr, hs⟩ | ⟨_, _, hs⟩
    · subst hs
      obtain ⟨_, he, _, v, hv⟩ := hinv.reverse u c hr
      obtain ⟨_, hev, hmem, _⟩ := hinv.reverse v c (hinv.forward c v hv)
      have hfp : fingerprint v = fingerprint u := Base62Encoder_inj _ _ c hev he
      rw [hv, hfree v hmem hfp]
    · subst hs
      exact GoMap.get_set_self _ _ _
  simp [GetOriginalURL, hget]

/-- Witness of C1 (amended): `https://example.com/a` shortened after `plumless`. -/
theorem C1_inverse_consistency_witness :
    GetOriginalURL
        { urlStore := [("1QOga5", "plumless"), ("1veLGQ", "https://example.com/a")],
          reverseStore := [("plumless", "1QOga5"), ("https://example.com/a", "1veLGQ")] }
        "1veLGQ"
      = (("https://example.com/a", none),
        { urlStore := [("1QOga5", "plumless"), ("1veLGQ", "https://example.com/a")],
          reverseStore := [("plumless", "1QOga5"), ("https://example.com/a", "1veLGQ")] }) :=
  C1_inverse_consistency ["plumless"]
    { urlStore := [("1QOga5", "plumless")], reverseStore := [("plumless", "1QOga5")] } _
    "https://example.com/a" "1veLGQ" (by decide) (by decide) (by decide)

/-- C2, as stated, fails: after `GenerateURL("plumless")` and
`GenerateURL("buckeroo")`, `reverseStore` contains `(plumless, 1QOga5)` while
`urlStore` maps `1QOga5` to `buckeroo`. -/
theorem C2_mirror_fails :
    ∃ s, runCalls Store.init [.generate "plumless", .generate "buckeroo"] = some s ∧
      s.reverseStore.get "plumless" = some "1QOga5" ∧
      s.urlStore.get "1QOga5" = some "buckeroo" ∧
      ¬ (s.urlStore.get "1QOga5" = some "plumless" ↔
          s.reverseStore.get "plumless" = some "1QOga5") :=
  ⟨{ urlStore := [("1QOga5", "buckeroo")],
     reverseStore := [("plumless", "1QOga5"), ("buckeroo", "1QOga5")] },
   by decide, by decide, by decide, by decide⟩

/-- C2, amended: in every store reached from the initial store by a sequence
of `GenerateURL` and `GetOriginalURL` calls, every entry `(c, u)` of `urlStore`
has the entry `(u, c)` in `reverseStore`; and if no two distinct URLs given to
`GenerateURL` in the sequence have the same CRC-32, every entry `(u, c)` of
`reverseStore` has the entry `(c, u)` in `urlStore`. -/
theorem C2_mirror (calls : List Call) (s : Store)
    (hrun : runCalls Store.init calls = some s) :
    (∀ c u, s.urlStore.get c = some u → s.reverseStore.get u = some c) ∧
    ((∀ v ∈ generated calls, ∀ w ∈ generated calls, fingerprint v = fingerprint w → v = w) →
      ∀ c u, s.urlStore.get c = some u ↔ s.reverseStore.get u = some c) := by
  rw [runCalls_eq_runGenerate] at hrun
  have hinv := Inv.of_runGenerate hrun
  refine ⟨hinv.forward, fun hfree c u => ⟨hinv.forward c u, fun hu => ?_⟩⟩
  obtain ⟨_, he, hmem, v, hv⟩ := hinv.reverse u c hu
  obtain ⟨_, hev, hmemv, _⟩ := hinv.reverse v c (hinv.forward c v hv)
  have hfp : fingerprint v = fingerprint u := Base62Encoder_inj _ _ c hev he
  rw [hv, hfree v hmemv u hmem hfp]

/-- Witness of C2 (amended): two shortenings and a failed lookup in between. -/
theorem C2_mirror_witness :
    (∀ c u, GoMap.get [("1QOga5", "plumless"), ("1veLGQ", "https://example.com/a")] c = some u →
        GoMap.get [("plumless", "1QOga5"), ("https://example.com/a", "1veLGQ")] u = some c) ∧
    ((∀ v ∈ ["plumless", "https://example.com/a"], ∀ w ∈ ["plumless", "https://example.com/a"],
        fingerprint v = fingerprint w → v = w) →
      ∀ c u, GoMap.get [("1QOga5", "plumless"), ("1veLGQ", "https://example.com/a")] c = some u ↔
        GoMap.get [("plumless", "1QOga5"), ("https://example.com/a", "1veLGQ")] u = some c) :=
  C2_mirror [.generate "plumless", .resolve "doesnotexist", .generate "https://example.com/a"]
    { urlStore := [("1QOga5", "plumless"), ("1veLGQ", "https://example.com/a")],
      reverseStore := [("plumless", "1QOga5"), ("https://example.com/a", "1veLGQ")] }
    (by decide)

/-- C3, on the code: `url.Parse` accepts the empty string, so on the initial
store `GenerateURL("")` returns the code `0` with a nil error and writes the
pair into both maps; and on every store it returns a nil error. -/
theorem C3_empty_url_accepted :
    url.Parse "" = none ∧
    GenerateURL Store.init ""
      = some (("0", none), { urlStore := [("0", "")], reverseStore := [("", "0")] }) ∧
    ∀ s, ∃ c s', GenerateURL s "" = some ((c, none), s') := by
  have hp0 : url.Parse "" = none := by decide
  refine ⟨hp0, by decide, fun s => ?_⟩
  rcases GenerateURL_cases s "" with ⟨err, hp, _⟩ | ⟨c, _, _, hg⟩ | ⟨c, _, _, _, hg⟩
  · rw [hp0] at hp
    simp at hp
  · exact ⟨c, _, hg⟩
  · exact ⟨c, _, hg⟩

/-- C4: on every store, if `GenerateURL(u)` succeeds with code `c`, a second
`GenerateURL(u)` right afterwards returns `c` again and leaves the store, both
maps, exactly as the first call left it. -/
theorem C4_second_call_idempotent (s s1 : Store) (u c : String)
    (hg : GenerateURL s u = some ((c, none), s1)) :
    GenerateURL s1 u = some ((c, none), s1) ∧
    ∀ s2 r, GenerateURL s1 u = some (r, s2) →
      s2.urlStore = s1.urlStore ∧ s2.reverseStore = s1.reverseStore ∧
      s2.urlStore.len = s1.urlStore.len ∧ s2.reverseStore.len = s1.reverseStore.len := by
  obtain ⟨hp, hcase⟩ := GenerateURL_ok s s1 u c hg
  have hr1 : s1.reverseStore.get u = some c := by
    rcases hcase with ⟨hr, hs⟩ | ⟨_, _, hs⟩
    · rw [hs]; exact hr
    · rw [hs]; exact GoMap.get_set_self _ _ _
  have h2 : GenerateURL s1 u = some ((c, none), s1) := by
    simp [GenerateURL, hp, hr1]
  refine ⟨h2, fun s2 r h => ?_⟩
  rw [h2] at h
  simp only [Option.some.injEq, Prod.mk.injEq] at h
  rw [← h.2]
  exact ⟨rfl, rfl, rfl, rfl⟩

/-- Witness of C4: `https://example.com/a` shortened twice from the initial store. -/
theorem C4_second_call_idempotent_witness :
    GenerateURL
        { urlStore := [("1veLGQ", "https://example.com/a")],
          reverseStore := [("https://example.com/a", "1veLGQ")] } "https://example.com/a"
      = some (("1veLGQ", none),
        { urlStore := [("1veLGQ", "https://example.com/a")],
          reverseStore := [("https://example.com/a", "1veLGQ")] }) :=
  (C4_second_call_idempotent Store.init _ "https://example.com/a" "1veLGQ" (by decide)).1

/-- C5, as stated, fails: in the store reached by `GenerateURL("plumless")`,
`urlStore` maps `1QOga5` to `plumless`; the call `GenerateURL("buckeroo")`
writes the key `1QOga5` a second time, and it then maps to `buckeroo`. -/
theorem C5_entries_kept_fails :
    ∃ s s', runGenerate Store.init ["plumless"] = some s ∧
      GenerateURL s "buckeroo" = some (("1QOga5", none), s') ∧
      s.urlStore.get "1QOga5" = some "plumless" ∧
      s'.urlStore.get "1QOga5" = some "buckeroo" ∧
      s'.urlStore.get "1QOga5" ≠ some "plumless" :=
  ⟨{ urlStore := [("1QOga5", "plumless")], reverseStore := [("plumless", "1QOga5")] },
   { urlStore := [("1QOga5", "buckeroo")],
     reverseStore := [("plumless", "1QOga5"), ("buckeroo", "1QOga5")] },
   by decide, by decide, by decide, by decide, by decide⟩

/-- C5, amended: for every store reached from the initial store by
`GenerateURL` calls and every further `GenerateURL(u)` call, every entry of
`reverseStore` is still there with the same value, every key of `urlStore` is
still a key, and an entry `(c, v)` of `urlStore` still has the value `v` if
`u` was already a key of `reverseStore` or the CRC-32 of `u` is not that of
`v`. -/
theorem C5_entries_kept (refs : List String) (s s' : Store) (u : String)
    (r : String × Option GoError)
    (hrun : runGenerate Store.init refs = some s)
    (hg : GenerateURL s u = some (r, s')) :
    (∀ k c, s.reverseStore.get k = some c → s'.reverseStore.get k = some c) ∧
    (∀ c v, s.urlStore.get c = some v → ∃ v', s'.urlStore.get c = some v') ∧
    (∀ c v, s.urlStore.get c = some v →
      (s.reverseStore.get u ≠ none ∨ fingerprint u ≠ fingerprint v) →
      s'.urlStore.get c = some v) := by
  have hinv := Inv.of_runGenerate hrun
  rcases GenerateURL_cases s u with ⟨err, _, hg'⟩ | ⟨c0, _, _, hg'⟩ | ⟨c0, hp, hr, he, hg'⟩
  · rw [hg'] at hg
    simp only [Option.some.injEq, Prod.mk.injEq] at hg
    rw [← hg.2]
    exact ⟨fun _ _ h => h, fun _ v h => ⟨v, h⟩, fun _ _ h _ => h⟩
  · rw [hg'] at hg
    simp only [Option.some.injEq, Prod.mk.injEq] at hg
    rw [← hg.2]
    exact ⟨fun _ _ h => h, fun _ v h => ⟨v, h⟩, fun _ _ h _ => h⟩
  · rw [hg'] at hg
    simp only [Option.some.injEq, Prod.mk.injEq] at hg
    rw [← hg.2]
    refine ⟨fun k c hk => ?_, fun c v hc => ?_, fun c v hc hcond => ?_⟩
    · have hne : k ≠ u := by
        intro hku
        rw [hku, hr] at hk
        simp at hk
      simp only
      rw [GoMap.get_set_of_ne _ _ _ _ hne]
      exact hk
    · by_cases hcc : c = c0
      · exact ⟨u, by rw [hcc]; exact GoMap.get_set_self _ _ _⟩
      · exact ⟨v, by simp only; rw [GoMap.get_set_of_ne _ _ _ _ hcc]; exact hc⟩
    · have hfp : fingerprint u ≠ fingerprint v := by
        rcases hcond with h | h
        · exact absurd hr h
        · exact h
      have hev := (hinv.reverse v c (hinv.forward c v hc)).2.1
      have hcc : c ≠ c0 := by
        intro hcc
        rw [hcc] at hev
        exact hfp (Base62Encoder_inj _ _ c0 he hev)
      simp only
      rw [GoMap.get_set_of_ne _ _ _ _ hcc]
      exact hc

/-- Witness of C5 (amended): `https://example.com/a` shortened after `plumless`. -/
theorem C5_entries_kept_witness :
    (∀ k c, GoMap.get [("plumless", "1QOga5")] k = some c →
      GoMap.get [("plumless", "1QOga5"), ("https://example.com/a", "1veLGQ")] k = some c) ∧
    (∀ c v, GoMap.get [("1QOga5", "plumless")] c = some v →
      ∃ v', GoMap.get [("1QOga5", "plumless"), ("1veLGQ", "https://example.com/a")] c = some v') ∧
    (∀ c v, GoMap.get [("1QOga5", "plumless")] c = some v →
      (GoMap.get [("plumless", "1QOga5")] "https://example.com/a" ≠ none ∨
        fingerprint "https://example.com/a" ≠ fingerprint v) →
      GoMap.get [("1QOga5", "plumless"), ("1veLGQ", "https://example.com/a")] c = some v) :=
  C5_entries_kept ["plumless"]
    { urlStore := [("1QOga5", "plumless")], reverseStore := [("plumless", "1QOga5")] }
    { urlStore := [("1QOga5", "plumless"), ("1veLGQ", "https://example.com/a")],
      reverseStore := [("plumless", "1QOga5"), ("https://example.com/a", "1veLGQ")] }
    "https://example.com/a" ("1veLGQ", none) (by decide) (by decide)

/-- C6, as stated, fails: in the store reached by `GenerateURL("plumless")` the
valid URL `buckeroo` is not in `reverseStore`; after two calls
`GenerateURL("buckeroo")` the map `urlStore` has one entry, as before, while
`reverseStore` has grown from one entry to two. -/
theorem C6_one_pair_fails :
    ∃ s s1 s2, runGenerate Store.init ["plumless"] = some s ∧
      url.Parse "buckeroo" = none ∧ s.reverseStore.get "buckeroo" = none ∧
      GenerateURL s "buckeroo" = some (("1QOga5", none), s1) ∧
      GenerateURL s1 "buckeroo" = some (("1QOga5", none), s2) ∧
      s.urlStore.len = 1 ∧ s2.urlStore.len = 1 ∧ s2.urlStore.len ≠ s.urlStore.len + 1 :=
  ⟨{ urlStore := [("1QOga5", "plumless")], reverseStore := [("plumless", "1QOga5")] },
   { urlStore := [("1QOga5", "buckeroo")],
     reverseStore := [("plumless", "1QOga5"), ("buckeroo", "1QOga5")] },
   { urlStore := [("1QOga5", "buckeroo")],
     reverseStore := [("plumless", "1QOga5"), ("buckeroo", "1QOga5")] },
   by decide, by decide, by decide, by decide, by decide, by decide, by decide, by decide⟩

/-- C6, amended: for every store reached from the initial store by
`GenerateURL` calls and every valid URL `u` not yet in `reverseStore`, two
calls `GenerateURL(u)` both succeed with the same code `c`, and afterwards
`reverseStore` has exactly one entry more than before the first call, while
`urlStore` has exactly one entry more if `c` was not yet one of its keys and
as many entries as before otherwise; `c` was not yet a key whenever none of
the earlier calls was given a URL with the CRC-32 of `u`. -/
theorem C6_one_pair (refs : List String) (s : Store) (u : String)
    (hrun : runGenerate Store.init refs = some s)
    (hvalid : url.Parse u = none) (hnew : s.reverseStore.get u = none) :
    ∃ c s1 s2, GenerateURL s u = some ((c, none), s1) ∧
      GenerateURL s1 u = some ((c, none), s2) ∧
      s2.reverseStore.len = s.reverseStore.len + 1 ∧
      s2.urlStore.len = (if s.urlStore.get c = none then s.urlStore.len + 1 else s.urlStore.len) ∧
      ((∀ v ∈ refs, fingerprint v ≠ fingerprint u) → s2.urlStore.len = s.urlStore.len + 1) := by
  have hinv := Inv.of_runGenerate hrun
  rcases GenerateURL_cases s u with ⟨err, hp, _⟩ | ⟨c0, _, hr, _⟩ | ⟨c, _, _, he, hg⟩
  · rw [hvalid] at hp
    simp at hp
  · rw [hnew] at hr
    simp at hr
  · have hr1 : (s.reverseStore.set u c).get u = some c := GoMap.get_set_self _ _ _
    have hg2 : GenerateURL
        { urlStore := s.urlStore.set c u, reverseStore := s.reverseStore.set u c } u
        = some ((c, none),
          { urlStore := s.urlStore.set c u, reverseStore := s.reverseStore.set u c }) := by
      simp [GenerateURL, hvalid, hr1]
    refine ⟨c, _, _, hg, hg2, ?_, ?_, fun hfree => ?_⟩
    · simp only
      rw [GoMap.len_set, if_pos hnew]
    · simp only
      rw [GoMap.len_set]
    · simp only
      rw [GoMap.len_set]
      have hnone : s.urlStore.get c = none := by
        cases hc : s.urlStore.get c with
        | none => rfl
        | some v =>
          obtain ⟨_, hev, hmem, _⟩ := hinv.reverse v c (hinv.forward c v hc)
          exact absurd (Base62Encoder_inj _ _ c hev he) (hfree v hmem)
      rw [if_pos hnone]

/-- Witness of C6 (amended): `https://example.com/a` shortened twice after `plumless`. -/
theorem C6_one_pair_witness :
    ∃ c s1 s2,
      GenerateURL
        { urlStore := [("1QOga5", "plumless")], reverseStore := [("plumless", "1QOga5")] }
        "https://example.com/a" = some ((c, none), s1) ∧
      GenerateURL s1 "https://example.com/a" = some ((c, none), s2) ∧
      s2.reverseStore.len = GoMap.len [("plumless", "1QOga5")] + 1 ∧
      s2.urlStore.len =
        (if GoMap.get [("1QOga5", "plumless")] c = none
          then GoMap.len [("1QOga5", "plumless")] + 1 else GoMap.len [("1QOga5", "plumless")]) ∧
      ((∀ v ∈ ["plumless"], fingerprint v ≠ fingerprint "https://example.com/a") →
        s2.urlStore.len = GoMap.len [("1QOga5", "plumless")] + 1) :=
  C6_one_pair ["plumless"]
    { urlStore := [("1QOga5", "plumless")], reverseStore := [("plumless", "1QOga5")] }
    "https://example.com/a" (by decide) (by decide) (by decide)

/-- C7: for every valid URL `u` and any two stores reached from the initial
store by `GenerateURL` calls, `GenerateURL(u)` succeeds in both and returns the
same code, the code of the CRC-32 of `u`. -/
theorem C7_determinism (refs1 refs2 : List String) (s1 s2 : Store) (u : String)
    (hvalid : url.Parse u = none)
    (hrun1 : runGenerate Store.init refs1 = some s1)
    (hrun2 : runGenerate Store.init refs2 = some s2) :
    ∃ c s1' s2', GenerateURL s1 u = some ((c, none), s1') ∧
      GenerateURL s2 u = some ((c, none), s2') ∧
      Base62Encoder (crc32.ChecksumIEEE (bytes u)) = some (c, none) := by
  obtain ⟨c1, s1', hg1, he1⟩ := GenerateURL_valid (Inv.of_runGenerate hrun1) hvalid
  obtain ⟨c2, s2', hg2, he2⟩ := GenerateURL_valid (Inv.of_runGenerate hrun2) hvalid
  have hc : c1 = c2 := by
    rw [he1] at he2
    simpa using he2
  subst hc
  exact ⟨c1, s1', s2', hg1, hg2, he1⟩

/-- Witness of C7: `https://example.com/a` shortened in the initial store and
in the store reached by shortening `plumless` and `https://example.com/a`. -/
theorem C7_determinism_witness :
    ∃ c s1' s2', GenerateURL Store.init "https://example.com/a" = some ((c, none), s1') ∧
      GenerateURL
        { urlStore := [("1QOga5", "plumless"), ("1veLGQ", "https://example.com/a")],
          reverseStore := [("plumless", "1QOga5"), ("https://example.com/a", "1veLGQ")] }
        "https://example.com/a" = some ((c, none), s2') ∧
      Base62Encoder (crc32.ChecksumIEEE (bytes "https://example.com/a")) = some (c, none) :=
  C7_determinism [] ["plumless", "https://example.com/a"] Store.init _ "https://example.com/a"
    (by decide) (by decide) (by decide)

/-- C8: for all valid URLs `u1`, `u2` with different CRC-32 and all stores
reached from the initial store by `GenerateURL` calls (the same store for both
calls, or the store after the first call for the second, or any other),
`GenerateURL(u1)` and `GenerateURL(u2)` succeed and return different codes. -/
theorem C8_distinct_fingerprints (refs1 refs2 : List String) (s1 s2 : Store) (u1 u2 : String)
    (hrun1 : runGenerate Store.init refs1 = some s1)
    (hrun2 : runGenerate Store.init refs2 = some s2)
    (hvalid1 : url.Parse u1 = none) (hvalid2 : url.Parse u2 = none)
    (hfp : crc32.ChecksumIEEE (bytes u1) ≠ crc32.ChecksumIEEE (bytes u2)) :
    ∃ c1 c2 s1' s2', GenerateURL s1 u1 = some ((c1, none), s1') ∧
      GenerateURL s2 u2 = some ((c2, none), s2') ∧ c1 ≠ c2 := by
  obtain ⟨c1, s1', hg1, he1⟩ := GenerateURL_valid (Inv.of_runGenerate hrun1) hvalid1
  obtain ⟨c2, s2', hg2, he2⟩ := GenerateURL_valid (Inv.of_runGenerate hrun2) hvalid2
  refine ⟨c1, c2, s1', s2', hg1, hg2, fun hc => ?_⟩
  subst hc
  exact hfp (Base62Encoder_inj _ _ c1 he1 he2)

/-- Witness of C8: `https://example.com/a` and `https://example.com/b`, both
shortened in the store reached by shortening `plumless`. -/
theorem C8_distinct_fingerprints_witness :
    ∃ c1 c2 s1' s2',
      GenerateURL
        { urlStore := [("1QOga5", "plumless")], reverseStore := [("plumless", "1QOga5")] }
        "https://example.com/a" = some ((c1, none), s1') ∧
      GenerateURL
        { urlStore := [("1QOga5", "plumless")], reverseStore := [("plumless", "1QOga5")] }
        "https://example.com/b" = some ((c2, none), s2') ∧ c1 ≠ c2 :=
  C8_distinct_fingerprints ["plumless"] ["plumless"] _ _
    "https://example.com/a" "https://example.com/b"
    (by decide) (by decide) (by decide) (by decide) (by decide)

/-- C9: on every store, `GetOriginalURL(code)` returns the error
"short URL not found" if and only if `code` is not a key of `urlStore`;
otherwise it returns the URL stored under `code` and a nil error; in both
cases the store is unchanged.  On the initial store
`GetOriginalURL("doesnotexist")` returns the error. -/
theorem C9_lookup (s : Store) (code : String) :
    ((GetOriginalURL s code).1.2 ≠ none ↔ s.urlStore.get code = none) ∧
    (s.urlStore.get code = none →
      (GetOriginalURL s code).1 = ("", some GoError.shortURLNotFound)) ∧
    (∀ u, s.urlStore.get code = some u → (GetOriginalURL s code).1 = (u, none)) ∧
    (GetOriginalURL s code).2 = s ∧
    GetOriginalURL Store.init "doesnotexist"
      = (("", some GoError.shortURLNotFound), Store.init) := by
  refine ⟨?_, ?_, ?_, ?_, by decide⟩
  · cases h : s.urlStore.get code <;> simp [GetOriginalURL, h]
  · intro h
    simp [GetOriginalURL, h]
  · intro u h
    simp [GetOriginalURL, h]
  · cases h : s.urlStore.get code <;> simp [GetOriginalURL, h]

/-- C10: for every `n`, in particular every 32-bit unsigned one,
`Base62Encoder(n)` returns a string all of whose characters are in
`[0-9A-Za-z]`, with a nil error; and `Base62Encoder(0)` returns `"0"`. -/
theorem C10_alphabet_closure :
    (∀ n, ∃ code, Base62Encoder n = some (code, none) ∧
      ∀ ch ∈ code.data, isBase62Symbol ch = true) ∧
    Base62Encoder 0 = some ("0", none) := by
  refine ⟨fun n => ⟨_, Base62Encoder_eq n, fun ch hch => ?_⟩, by decide⟩
  simp only [List.mem_map, List.mem_reverse] at hch
  obtain ⟨d, hd, rfl⟩ := hch
  exact symbolOf_isBase62Symbol d (digitsOf_lt n d hd)

/-- C11: for every `n > 0`, in particular every 32-bit unsigned one,
`Base62Encoder(n)` returns a code whose first character is not `'0'` and whose
length is the least `k` with `n < 62 ^ k`; and a returned code that starts
with `'0'` is the code `"0"` of `n = 0`. -/
theorem C11_shortest_form (n : Nat) (hn : 0 < n) :
    (∃ code, Base62Encoder n = some (code, none) ∧ code.data.head? ≠ some '0' ∧
      n < 62 ^ code.length ∧ ∀ k, n < 62 ^ k → code.length ≤ k) ∧
    (∀ m code, Base62Encoder m = some (code, none) → code.data.head? = some '0' →
      m = 0 ∧ code = "0") := by
  have hhead : ∀ m code, 0 < m → Base62Encoder m = some (code, none) →
      code.data.head? ≠ some '0' := by
    intro m code hm hcode hzero
    have hm0 : m ≠ 0 := Nat.pos_iff_ne_zero.mp hm
    have hne : Nat.digits 62 m ≠ [] := Nat.digits_ne_nil_iff_ne_zero.mpr hm0
    rw [Base62Encoder_data m code hcode] at hzero
    simp only [digitsOf, if_neg hm0, List.head?_map, List.head?_reverse,
      List.getLast?_eq_getLast _ hne, Option.map_some'] at hzero
    have hsym : symbolOf ((Nat.digits 62 m).getLast hne) = symbolOf 0 := by
      simpa using hzero
    have hlt : (Nat.digits 62 m).getLast hne < 62 :=
      Nat.digits_lt_base (by decide) (List.getLast_mem hne)
    exact Nat.getLast_digit_ne_zero 62 hm0 (symbolOf_injOn _ hlt 0 (by decide) hsym)
  have hn0 : n ≠ 0 := Nat.pos_iff_ne_zero.mp hn
  refine ⟨⟨_, Base62Encoder_eq n, hhead n _ hn (Base62Encoder_eq n), ?_, ?_⟩, ?_⟩
  · simp only [String.length, List.length_map, List.length_reverse, digitsOf, if_neg hn0]
    exact Nat.lt_base_pow_length_digits (by decide)
  · intro k hk
    simp only [String.length, List.length_map, List.length_reverse, digitsOf, if_neg hn0]
    exact (digits_length_le_iff n k).mpr hk
  · intro m code hcode hzero
    have hm : m = 0 := by
      by_contra hm
      exact hhead m code (Nat.pos_of_ne_zero hm) hcode hzero
    subst hm
    refine ⟨rfl, ?_⟩
    have h0 : Base62Encoder 0 = some ("0", none) := by decide
    rw [h0] at hcode
    simp only [Option.some.injEq, Prod.mk.injEq, and_true] at hcode
    exact hcode.symm

/-- Witness of C11: the largest 32-bit value, whose code `4gfFC3` has six characters. -/
theorem C11_shortest_form_witness :
    (∃ code, Base62Encoder 4294967295 = some (code, none) ∧ code.data.head? ≠ some '0' ∧
      4294967295 < 62 ^ code.length ∧ ∀ k, 4294967295 < 62 ^ k → code.length ≤ k) ∧
    (∀ m code, Base62Encoder m = some (code, none) → code.data.head? = some '0' →
      m = 0 ∧ code = "0") :=
  C11_shortest_form 4294967295 (by decide)

/-- C12: on every store, for every valid URL `u` that is not a key of
`reverseStore`, `GenerateURL(u)` returns the code `c` that `Base62Encoder`
gives for `crc32.ChecksumIEEE` of the bytes of `u`, and afterwards
`urlStore[c]` is `u` and `reverseStore[u]` is `c`.  The checksum is CRC-32
with the IEEE polynomial: on `123456789` it gives the check value
`0xCBF43926`. -/
theorem C12_generate_new (s : Store) (u : String)
    (hvalid : url.Parse u = none) (hnew : s.reverseStore.get u = none) :
    (∃ c s', Base62Encoder (crc32.ChecksumIEEE (bytes u)) = some (c, none) ∧
      GenerateURL s u = some ((c, none), s') ∧
      s'.urlStore.get c = some u ∧ s'.reverseStore.get u = some c) ∧
    crc32.ChecksumIEEE (bytes "123456789") = 0xCBF43926 := by
  refine ⟨?_, by decide⟩
  rcases GenerateURL_cases s u with ⟨err, hp, _⟩ | ⟨c0, _, hr, _⟩ | ⟨c, _, _, he, hg⟩
  · rw [hvalid] at hp
    simp at hp
  · rw [hnew] at hr
    simp at hr
  · exact ⟨c, _, he, hg, GoMap.get_set_self _ _ _, GoMap.get_set_self _ _ _⟩

/-- Witness of C12: `https://example.com/a` on the store that holds `plumless`. -/
theorem C12_generate_new_witness :
    (∃ c s', Base62Encoder (crc32.ChecksumIEEE (bytes "https://example.com/a")) = some (c, none) ∧
      GenerateURL
        { urlStore := [("1QOga5", "plumless")], reverseStore := [("plumless", "1QOga5")] }
        "https://example.com/a" = some ((c, none), s') ∧
      s'.urlStore.get c = some "https://example.com/a" ∧
      s'.reverseStore.get "https://example.com/a" = some c) ∧
    crc32.ChecksumIEEE (bytes "123456789") = 0xCBF43926 :=
  C12_generate_new
    { urlStore := [("1QOga5", "plumless")], reverseStore := [("plumless", "1QOga5")] }
    "https://example.com/a" (by decide) (by decide)

/-- C13: for every `n < 62`, `Base62Encoder(n)` returns the one-character
string whose character is `'0' + n` for `n < 10`, `'A' + (n - 10)` for
`10 <= n < 36` and `'a' + (n - 36)` for `36 <= n < 62`; so 9 gives `"9"`, 10
gives `"A"`, 35 gives `"Z"`, 36 gives `"a"` and 61 gives `"z"`. -/
theorem C13_alphabet_order (n : Nat) (hn : n < 62) :
    Base62Encoder n
      = some (String.mk [Char.ofNat
          (if n < 10 then '0'.toNat + n
            else if n < 36 then 'A'.toNat + (n - 10) else 'a'.toNat + (n - 36))], none) ∧
    Base62Encoder 9 = some ("9", none) ∧ Base62Encoder 10 = some ("A", none) ∧
    Base62Encoder 35 = some ("Z", none) ∧ Base62Encoder 36 = some ("a", none) ∧
    Base62Encoder 61 = some ("z", none) := by
  refine ⟨?_, by decide, by decide, by decide, by decide, by decide⟩
  revert n
  decide

/-- Witness of C13: the digit value 36, the first lowercase letter. -/
theorem C13_alphabet_order_witness :
    Base62Encoder 36
      = some (String.mk [Char.ofNat
          (if 36 < 10 then '0'.toNat + 36
            else if 36 < 36 then 'A'.toNat + (36 - 10) else 'a'.toNat + (36 - 36))], none) ∧
    Base62Encoder 9 = some ("9", none) ∧ Base62Encoder 10 = some ("A", none) ∧
    Base62Encoder 35 = some ("Z", none) ∧ Base62Encoder 36 = some ("a", none) ∧
    Base62Encoder 61 = some ("z", none) :=
  C13_alphabet_order 36 (by decide)

/-- C14: for every 32-bit unsigned `n` the division loop of `Base62Encoder`
finishes, within six iterations, and `Base62Encoder(n)` returns a nil error;
hence on every store and every input `GenerateURL` returns, and when it
returns an error, `url.Parse` has rejected the input and the error wraps the
one of `url.Parse`. -/
theorem C14_encoder_total (n : Nat) (hn : n < 2 ^ 32) :
    (∃ result, Base62Encoder.loop 6 n [] = some result ∧
      Base62Encoder.loop n n [] = some result) ∧
    (∃ code, Base62Encoder n = some (code, none)) ∧
    (∀ s u, ∃ r s', GenerateURL s u = some (r, s')) ∧
    (∀ s u c err s', GenerateURL s u = some ((c, some err), s') →
      ∃ cause, url.Parse u = some cause ∧ err = GoError.invalidURL cause) := by
  refine ⟨⟨_, ?_, Base62Encoder.loop_eq n n [] (le_refl n)⟩, ⟨_, Base62Encoder_eq n⟩,
    GenerateURL_total, ?_⟩
  · have h6 : n < 62 ^ 6 := lt_trans hn (by decide)
    exact Base62Encoder.loop_eq_of_length 6 n [] ((digits_length_le_iff n 6).mpr h6)
  · intro s u c err s' hg
    rcases GenerateURL_cases s u with ⟨cause, hp, hg'⟩ | ⟨c0, _, _, hg'⟩ | ⟨c0, _, _, _, hg'⟩
    · rw [hg'] at hg
      simp only [Option.some.injEq, Prod.mk.injEq] at hg
      exact ⟨cause, hp, hg.1.2.symm⟩
    · rw [hg'] at hg
      simp at hg
    · rw [hg'] at hg
      simp at hg

/-- Witness of C14: the largest 32-bit value. -/
theorem C14_encoder_total_witness :
    (∃ result, Base62Encoder.loop 6 4294967295 [] = some result ∧
      Base62Encoder.loop 4294967295 4294967295 [] = some result) ∧
    (∃ code, Base62Encoder 4294967295 = some (code, none)) ∧
    (∀ s u, ∃ r s', GenerateURL s u = some (r, s')) ∧
    (∀ s u c err s', GenerateURL s u = some ((c, some err), s') →
      ∃ cause, url.Parse u = some cause ∧ err = GoError.invalidURL cause) :=
  C14_encoder_total 4294967295 (by decide)

/-- C15: let `u` be a valid URL that is not yet in the store `s`, neither a key
of `reverseStore` nor a value of `urlStore` (in a store reached by
`GenerateURL` calls the second follows from the first), and let `N >= 1` calls
`GenerateURL(u)` run concurrently on `s`, each a read-locked lookup step
followed, on a miss, by a write-locked insert step.  Under every schedule of
these steps: the system state is defined; the store is at every moment either
`s` or `s` with both maps written for `u`, so that `urlStore` holds `(c, u)`
exactly when `reverseStore` holds `(u, c)`; once all calls have returned, all
have returned the same code `c` with a nil error, `reverseStore` has one entry
more than `s`, mapping `u` to `c`, and `c` is the only key of `urlStore` that
maps to `u`; and all calls have returned as soon as each was scheduled
twice. -/
theorem C15_concurrent_generation (N : Nat) (s : Store) (u : String)
    (sched : List Nat) (hN : 1 ≤ N)
    (hvalid : url.Parse u = none) (hnew : s.reverseStore.get u = none)
    (hnotin : ∀ c', s.urlStore.get c' ≠ some u) :
    ∃ c sys, Base62Encoder (crc32.ChecksumIEEE (bytes u)) = some (c, none) ∧
      runSched ⟨s, List.replicate N (.start u)⟩ sched = some sys ∧
      (sys.store = s ∨ sys.store =
        { urlStore := s.urlStore.set c u, reverseStore := s.reverseStore.set u c }) ∧
      (sys.store.urlStore.get c = some u ↔ sys.store.reverseStore.get u = some c) ∧
      ((∀ t ∈ sys.threads, t.rank = 2) →
        sys.threads = List.replicate N (.done (c, none)) ∧
        sys.store.reverseStore.get u = some c ∧
        (∀ c', sys.store.urlStore.get c' = some u ↔ c' = c) ∧
        sys.store.reverseStore.len = s.reverseStore.len + 1 ∧
        sys.store.urlStore.len
          = (if s.urlStore.get c = none then s.urlStore.len + 1 else s.urlStore.len)) ∧
      ((∀ i < N, 2 ≤ sched.count i) → ∀ t ∈ sys.threads, t.rank = 2) := by
  obtain ⟨c, he⟩ : ∃ c, Base62Encoder (fingerprint u) = some (c, none) :=
    ⟨_, Base62Encoder_eq _⟩
  have h0 : Race s u c ⟨s, List.replicate N (.start u)⟩ := by
    constructor
    · intro t ht
      exact Or.inl (List.mem_replicate.mp ht).2
    · left
      refine ⟨rfl, fun t ht => ?_⟩
      rw [(List.mem_replicate.mp ht).2]
      simp
  obtain ⟨sys, hsched, hrace, hlen, hrank⟩ := Race.run_spec hvalid hnew he sched _ h0
  have hlenN : sys.threads.length = N := by simpa using hlen
  refine ⟨c, sys, he, hsched, ?_, ?_, ?_, ?_⟩
  · rcases hrace.store with ⟨hs, _⟩ | hs
    · exact Or.inl hs
    · exact Or.inr hs
  · rcases hrace.store with ⟨hs, _⟩ | hs
    · rw [hs]
      constructor
      · intro h
        exact absurd h (hnotin c)
      · intro h
        rw [hnew] at h
        simp at h
    · rw [hs]
      exact ⟨fun _ => GoMap.get_set_self _ _ _, fun _ => GoMap.get_set_self _ _ _⟩
  · intro hall
    have hdone : ∀ t ∈ sys.threads, t = .done (c, none) := by
      intro t ht
      have hr := hall t ht
      rcases hrace.threads t ht with h1 | h1 | h1
      · rw [h1] at hr
        simp [Thread.rank] at hr
      · rw [h1] at hr
        simp [Thread.rank] at hr
      · exact h1
    have hstore : sys.store
        = { urlStore := s.urlStore.set c u, reverseStore := s.reverseStore.set u c } := by
      rcases hrace.store with ⟨_, hnd⟩ | hs
      · have hne : sys.threads ≠ [] := by
          intro hnil
          rw [hnil] at hlenN
          simp at hlenN
          omega
        obtain ⟨t, ht⟩ := List.exists_mem_of_ne_nil _ hne
        exact absurd (hdone t ht) (hnd t ht)
      · exact hs
    refine ⟨List.eq_replicate_iff.mpr ⟨hlenN, hdone⟩, ?_, ?_, ?_, ?_⟩
    · rw [hstore]
      exact GoMap.get_set_self _ _ _
    · intro c'
      rw [hstore]
      constructor
      · intro h
        by_contra hne
        rw [GoMap.get_set_of_ne _ _ _ _ hne] at h
        exact hnotin c' h
      · intro h
        rw [h]
        exact GoMap.get_set_self _ _ _
    · rw [hstore]
      simp only
      rw [GoMap.len_set, if_pos hnew]
    · rw [hstore]
      simp only
      rw [GoMap.len_set]
  · intro hfair t ht
    obtain ⟨j, hj⟩ := List.mem_iff_getElem?.mp ht
    obtain ⟨hlt, _⟩ := List.getElem?_eq_some.mp hj
    have hjN : j < N := by omega
    have hrj := hrank j
    rw [Sys.rankAt_of_get hj] at hrj
    have hle : t.rank ≤ 2 := by
      cases t <;> simp [Thread.rank]
    have h2 := hfair j hjN
    omega

/-- Witness of C15: two calls for `https://example.com/a` on the initial
store that both miss in the lookup and both insert. -/
theorem C15_concurrent_generation_witness :
    ∃ c sys,
      Base62Encoder (crc32.ChecksumIEEE (bytes "https://example.com/a")) = some (c, none) ∧
      runSched ⟨Store.init, List.replicate 2 (.start "https://example.com/a")⟩ [0, 1, 0, 1]
        = some sys ∧
      (sys.store = Store.init ∨ sys.store =
        { urlStore := Store.init.urlStore.set c "https://example.com/a",
          reverseStore := Store.init.reverseStore.set "https://example.com/a" c }) ∧
      (sys.store.urlStore.get c = some "https://example.com/a" ↔
        sys.store.reverseStore.get "https://example.com/a" = some c) ∧
      ((∀ t ∈ sys.threads, t.rank = 2) →
        sys.threads = List.replicate 2 (.done (c, none)) ∧
        sys.store.reverseStore.get "https://example.com/a" = some c ∧
        (∀ c', sys.store.urlStore.get c' = some "https://example.com/a" ↔ c' = c) ∧
        sys.store.reverseStore.len = Store.init.reverseStore.len + 1 ∧
        sys.store.urlStore.len
          = (if Store.init.urlStore.get c = none then Store.init.urlStore.len + 1
              else Store.init.urlStore.len)) ∧
      ((∀ i < 2, 2 ≤ [0, 1, 0, 1].count i) → ∀ t ∈ sys.threads, t.rank = 2) :=
  C15_concurrent_generation 2 Store.init "https://example.com/a" [0, 1, 0, 1]
    (by decide) (by decide) (by decide) (fun _ => by simp [Store.init, GoMap.empty, GoMap.get])

/-- C16: for every `n`, in particular every 32-bit unsigned one, the code
returned by `Base62Encoder(n)`, read as a big-endian base-62 numeral with the
index in the alphabet string as digit value, is `n`; hence two numbers with
the same code are equal. -/
theorem C16_round_trip (n : Nat) :
    (∃ code, Base62Encoder n = some (code, none) ∧ readBase62 code = n) ∧
    (∀ m, Base62Encoder m = Base62Encoder n → m = n) := by
  have hread : ∀ k code, Base62Encoder k = some (code, none) → readBase62 code = k := by
    intro k code hcode
    unfold readBase62
    rw [Base62Encoder_data k code hcode, foldl_symbolOf _ (digitsOf_lt k), ofDigits_digitsOf]
  refine ⟨⟨_, Base62Encoder_eq n, hread n _ (Base62Encoder_eq n)⟩, fun m hm => ?_⟩
  have hn := Base62Encoder_eq n
  rw [← hm] at hn
  rw [← hread m _ hn, hread n _ (Base62Encoder_eq n)]

/-- C17: in every store reached from the initial store by `GenerateURL`
calls, every entry `(u, c)` of `reverseStore` has for `c` the code that
`Base62Encoder` gives for `crc32.ChecksumIEEE` of the bytes of `u`, and `c` is
a key of `urlStore`. -/
theorem C17_reverse_entries (refs : List String) (s : Store) (u c : String)
    (hrun : runGenerate Store.init refs = some s)
    (hentry : s.reverseStore.get u = some c) :
    Base62Encoder (crc32.ChecksumIEEE (bytes u)) = some (c, none) ∧
    ∃ v, s.urlStore.get c = some v := by
  obtain ⟨_, he, _, hv⟩ := (Inv.of_runGenerate hrun).reverse u c hentry
  exact ⟨he, hv⟩

/-- Witness of C17: the entry of `plumless` after `plumless` and `buckeroo`,
whose code is a key of `urlStore` although it maps to `buckeroo` there. -/
theorem C17_reverse_entries_witness :
    Base62Encoder (crc32.ChecksumIEEE (bytes "plumless")) = some ("1QOga5", none) ∧
    ∃ v, GoMap.get [("1QOga5", "buckeroo")] "1QOga5" = some v :=
  C17_reverse_entries ["plumless", "buckeroo"]
    { urlStore := [("1QOga5", "buckeroo")],
      reverseStore := [("plumless", "1QOga5"), ("buckeroo", "1QOga5")] }
    "plumless" "1QOga5" (by decide) (by decide)

/-- C18: in every store reached from the initial store by `GenerateURL`
calls, also after two distinct URLs with the same CRC-32 were shortened, every
entry `(c, u)` of `urlStore` has the entry `(u, c)` in `reverseStore`. -/
theorem C18_forward_half (refs : List String) (s : Store) (c u : String)
    (hrun : runGenerate Store.init refs = some s)
    (hentry : s.urlStore.get c = some u) :
    s.reverseStore.get u = some c :=
  (Inv.of_runGenerate hrun).forward c u hentry

/-- Witness of C18: the only entry of `urlStore` after `plumless` and
`buckeroo`, two URLs with the same CRC-32. -/
theorem C18_forward_half_witness :
    GoMap.get [("plumless", "1QOga5"), ("buckeroo", "1QOga5")] "buckeroo" = some "1QOga5" :=
  C18_forward_half ["plumless", "buckeroo"]
    { urlStore := [("1QOga5", "buckeroo")],
      reverseStore := [("plumless", "1QOga5"), ("buckeroo", "1QOga5")] }
    "1QOga5" "buckeroo" (by decide) (by decide)

/-- C19: on every store, when `GenerateURL` returns an error, the store
afterwards, both maps, is the store before, and the returned code is the empty
string. -/
theorem C19_rejection_atomic (s s' : Store) (u c : String) (err : GoError)
    (hg : GenerateURL s u = some ((c, some err), s')) :
    s'.urlStore = s.urlStore ∧ s'.reverseStore = s.reverseStore ∧ c = "" := by
  rcases GenerateURL_cases s u with ⟨cause, _, hg'⟩ | ⟨c0, _, _, hg'⟩ | ⟨c0, _, _, _, hg'⟩
  · rw [hg'] at hg
    simp only [Option.some.injEq, Prod.mk.injEq] at hg
    rw [← hg.2, ← hg.1.1]
    exact ⟨rfl, rfl, rfl⟩
  · rw [hg'] at hg
    simp at hg
  · rw [hg'] at hg
    simp at hg

/-- Witness of C19: `:foo`, which `url.Parse` rejects for its missing scheme,
on the store that holds `plumless`. -/
theorem C19_rejection_atomic_witness :
    GenerateURL
        { urlStore := [("1QOga5", "plumless")], reverseStore := [("plumless", "1QOga5")] } ":foo"
      = some (("", some (.invalidURL .missingProtocolScheme)),
        { urlStore := [("1QOga5", "plumless")], reverseStore := [("plumless", "1QOga5")] }) ∧
    (Store.mk [("1QOga5", "plumless")] [("plumless", "1QOga5")]).urlStore
      = [("1QOga5", "plumless")] ∧
    (Store.mk [("1QOga5", "plumless")] [("plumless", "1QOga5")]).reverseStore
      = [("plumless", "1QOga5")] ∧ "" = "" :=
  ⟨by decide, C19_rejection_atomic
    { urlStore := [("1QOga5", "plumless")], reverseStore := [("plumless", "1QOga5")] }
    { urlStore := [("1QOga5", "plumless")], reverseStore := [("plumless", "1QOga5")] }
    ":foo" "" (.invalidURL .missingProtocolScheme) (by decide)⟩

/-- C20: for every 32-bit unsigned `n`, `Base62Encoder(n)` returns a code of at
least one and at most six characters; and in every store reached from the
initial store by `GenerateURL` calls, a code returned by `GenerateURL` has
between one and six characters. -/
theorem C20_code_length (n : Nat) (hn : n < 2 ^ 32) :
    (∃ code, Base62Encoder n = some (code, none) ∧ 1 ≤ code.length ∧ code.length ≤ 6) ∧
    (∀ refs s u c s', runGenerate Store.init refs = some s →
      GenerateURL s u = some ((c, none), s') → 1 ≤ c.length ∧ c.length ≤ 6) := by
  have hlen : ∀ k code, k < 2 ^ 32 → Base62Encoder k = some (code, none) →
      1 ≤ code.length ∧ code.length ≤ 6 := by
    intro k code hk hcode
    have h6 : k < 62 ^ 6 := lt_trans hk (by decide)
    simp only [String.length, Base62Encoder_data k code hcode, List.length_map,
      List.length_reverse]
    exact ⟨digitsOf_length_pos k, digitsOf_length_le k 6 (by decide) h6⟩
  refine ⟨⟨_, Base62Encoder_eq n, hlen n _ hn (Base62Encoder_eq n)⟩, ?_⟩
  intro refs s u c s' hrun hg
  exact hlen _ c (crc32.ChecksumIEEE_lt _) (GenerateURL_code (Inv.of_runGenerate hrun) hg)

/-- Witness of C20: the largest 32-bit value, whose code has six characters. -/
theorem C20_code_length_witness :
    (∃ code, Base62Encoder 4294967295 = some (code, none) ∧ 1 ≤ code.length ∧
      code.length ≤ 6) ∧
    (∀ refs s u c s', runGenerate Store.init refs = some s →
      GenerateURL s u = some ((c, none), s') → 1 ≤ c.length ∧ c.length ≤ 6) :=
  C20_code_length 4294967295 (by decide)

end UrlShortener
